import Mathlib

/-!
Shallow embedding of the omnicli Go SDK argument-decoding engine
(`args.go`, `paramname.go`, `internal/omniarg/{tag.go,sanitize.go}`) in Lean 4,
together with theorems settling the specification claims about it.

Strings are modelled as Lean `String` (a list of characters); Go byte-level
indexing coincides with character indexing on the ASCII inputs this SDK
manipulates, and the Go `unicode` class functions are modelled by their
ASCII fragments.  Go machine integers are modelled as `Int` with the
signed 64-bit range checks made explicit where Go's `strconv` performs them.
Fallible Go functions returning `(T, error)` are modelled with `Except`;
the environment is a read-only association list.
-/

set_option synthInstance.maxSize 4096
set_option maxRecDepth 8192

namespace OmniCli

/-! ## ASCII character primitives (models of the `unicode` helpers used by the SDK) -/

/-- Model of `unicode.IsUpper` restricted to ASCII. -/
def goIsUpper (c : Char) : Bool := 65 ≤ c.toNat && c.toNat ≤ 90

/-- Model of `unicode.IsLower` restricted to ASCII. -/
def goIsLower (c : Char) : Bool := 97 ≤ c.toNat && c.toNat ≤ 122

/-- Model of a decimal digit test (`'0' ≤ c ≤ '9'`). -/
def goIsDigit (c : Char) : Bool := 48 ≤ c.toNat && c.toNat ≤ 57

/-- Model of `unicode.IsLetter(r) || unicode.IsNumber(r)` restricted to ASCII,
as used by `SanitizeArgName`. -/
def goIsAlnum (c : Char) : Bool := goIsUpper c || goIsLower c || goIsDigit c

/-- Model of `unicode.IsSpace` restricted to ASCII
(space, tab, newline, vertical tab, form feed, carriage return). -/
def goIsSpace (c : Char) : Bool := c.toNat = 32 || (9 ≤ c.toNat && c.toNat ≤ 13)

/-- Model of `unicode.ToLower` restricted to ASCII: shift an upper-case
letter down by 32, leave everything else unchanged. -/
def goToLowerChar (c : Char) : Char :=
  if h : 65 ≤ c.toNat ∧ c.toNat ≤ 90 then
    Char.ofNatAux (c.toNat + 32) (Or.inl (by omega))
  else c

/-- Model of `unicode.ToUpper` restricted to ASCII. -/
def goToUpperChar (c : Char) : Char :=
  if h : 97 ≤ c.toNat ∧ c.toNat ≤ 122 then
    Char.ofNatAux (c.toNat - 32) (Or.inl (by omega))
  else c

/-- Character-wise map over a string, via its character list. -/
def mapChars (f : Char → Char) (s : String) : String := ⟨s.data.map f⟩

/-- Model of `strings.ToLower` (ASCII fragment). -/
def strToLower (s : String) : String := mapChars goToLowerChar s

/-- Model of `strings.ToUpper` (ASCII fragment). -/
def strToUpper (s : String) : String := mapChars goToUpperChar s

theorem toNat_ofNatAux (n : Nat) (h : n.isValidChar) : (Char.ofNatAux n h).toNat = n := rfl

theorem goToLowerChar_toNat (c : Char) :
    (goToLowerChar c).toNat =
      if 65 ≤ c.toNat ∧ c.toNat ≤ 90 then c.toNat + 32 else c.toNat := by
  unfold goToLowerChar
  split <;> simp_all [toNat_ofNatAux]

theorem goToLowerChar_idem (c : Char) : goToLowerChar (goToLowerChar c) = goToLowerChar c := by
  unfold goToLowerChar
  split
  · have h1 : (Char.ofNatAux (c.toNat + 32) (Or.inl (by omega))).toNat = c.toNat + 32 := rfl
    split
    · omega
    · rfl
  · rfl

theorem strToLower_idem (s : String) : strToLower (strToLower s) = strToLower s := by
  unfold strToLower mapChars
  apply String.ext
  simp [List.map_map, Function.comp_def, goToLowerChar_idem]

/-! ## Error values (`errors.go`) -/

/-- Model of the SDK's error types: one constructor per concrete Go error
type, plus `errorf` for the ad-hoc `fmt.Errorf` errors produced by `Fill`. -/
inductive GoErr where
  | argListMissing : GoErr
  | argTypeMissing (argName : String) (index : Option Nat) : GoErr
  | invalidTypeString (typeStr : String) : GoErr
  | typeMismatch (fieldName expectedType receivedType : String) : GoErr
  | invalidBooleanValue (message : String) : GoErr
  | invalidIntegerValue (message : String) : GoErr
  | invalidFloatValue (message : String) : GoErr
  | errorf (message : String) : GoErr
deriving DecidableEq, Repr

instance {ε : Type u} {α : Type v} [DecidableEq ε] [DecidableEq α] :
    DecidableEq (Except ε α) := fun x y =>
  match x, y with
  | .ok a, .ok b =>
    if h : a = b then isTrue (by rw [h]) else isFalse (by simp [h])
  | .error a, .error b =>
    if h : a = b then isTrue (by rw [h]) else isFalse (by simp [h])
  | .ok _, .error _ => isFalse (by simp)
  | .error _, .ok _ => isFalse (by simp)

/-! ## Model of `strconv.Atoi` (signed decimal, 64-bit `int` range) -/

/-- Numeric value of a decimal digit character. -/
def digitVal (c : Char) : Nat := c.toNat - 48

/-- Value of a list of decimal digits, most significant first
(the accumulator fold performed by `strconv.ParseInt`). -/
def decDigitsVal (cs : List Char) : Nat := cs.foldl (fun a c => 10 * a + digitVal c) 0

/-- Parse a non-empty all-digit character list to its value. -/
def parseDigits (cs : List Char) : Option Nat :=
  if cs.isEmpty then none
  else if cs.all goIsDigit then some (decDigitsVal cs) else none

/-- Largest value of Go's 64-bit `int`. -/
def int64Max : Nat := 2 ^ 63 - 1

/-- Character-list worker for the `strconv.Atoi` model: an optional sign
followed by one or more decimal digits, rejecting values outside the signed
64-bit range of Go's `int`. -/
def goAtoiChars : List Char → Option Int
  | [] => none
  | c :: rest =>
    if c = '-' then
      match parseDigits rest with
      | none => none
      | some n => if n ≤ 2 ^ 63 then some (-(n : Int)) else none
    else
      let ds := if c = '+' then rest else c :: rest
      match parseDigits ds with
      | none => none
      | some n => if n ≤ int64Max then some (n : Int) else none

/-- Model of `strconv.Atoi`. -/
def goAtoi (s : String) : Option Int := goAtoiChars s.data

/-! ## Splitting (model of `strings.Split` on a one-character separator) -/

/-- Split a character list on a separator character; mirrors `strings.Split`
(always returns at least one, possibly empty, segment). -/
def splitChar (sep : Char) : List Char → List (List Char)
  | [] => [[]]
  | c :: cs =>
    match splitChar sep cs with
    | [] => [[]]
    | h :: t => if c = sep then [] :: h :: t else (c :: h) :: t

/-- Model of `strings.Split` for a single-character separator. -/
def goSplit (s : String) (sep : Char) : List String :=
  (splitChar sep s.data).map fun cs => ⟨cs⟩

theorem splitChar_ne_nil (sep : Char) (cs : List Char) : splitChar sep cs ≠ [] := by
  cases cs with
  | nil => simp [splitChar]
  | cons c cs =>
    simp only [splitChar]
    cases h : splitChar sep cs with
    | nil => simp
    | cons a t =>
      simp only [h]
      split <;> simp

theorem splitChar_of_not_mem (sep : Char) (cs : List Char) (h : ∀ c ∈ cs, c ≠ sep) :
    splitChar sep cs = [cs] := by
  induction cs with
  | nil => rfl
  | cons c cs ih =>
    have hc : c ≠ sep := h c (by simp)
    have ih' := ih (fun x hx => h x (by simp [hx]))
    simp only [splitChar]
    rw [ih']
    simp [hc]

theorem splitChar_append (sep : Char) (xs ys : List Char) (h : ∀ c ∈ xs, c ≠ sep) :
    splitChar sep (xs ++ sep :: ys) = xs :: splitChar sep ys := by
  induction xs with
  | nil =>
    rw [List.nil_append]
    simp only [splitChar]
    cases hy : splitChar sep ys with
    | nil => exact absurd hy (splitChar_ne_nil sep ys)
    | cons a t => simp
  | cons x xs ih =>
    have hx : x ≠ sep := h x (by simp)
    have ih' := ih (fun c hc => h c (by simp [hc]))
    rw [List.cons_append]
    simp only [splitChar]
    rw [ih']
    simp [hx]

/-! ## Type descriptors (`typeInfo`, `parseTypeInfo` in `args.go`) -/

/-- Model of the SDK's `typeInfo` struct. -/
structure TypeInfo where
  rawType : String
  baseType : String
  sliceSize : Int
  isSlice : Bool
  isGroup : Bool
deriving DecidableEq, Repr

/-- Model of `parseTypeInfo`: split the descriptor on `/`; more than three
segments is an error; the second segment (when present) is the slice size and
the third (when present) is validated as an integer. -/
def parseTypeInfo (typeStr : String) : Except GoErr TypeInfo :=
  let parts := goSplit typeStr '/'
  if 3 < parts.length then .error (.invalidTypeString typeStr)
  else if 1 < parts.length then
    match goAtoi (parts.getD 1 "") with
    | none => .error (.invalidTypeString typeStr)
    | some n =>
      if 2 < parts.length then
        match goAtoi (parts.getD 2 "") with
        | none => .error (.invalidTypeString typeStr)
        | some _ =>
          .ok { rawType := typeStr, baseType := parts.headD "", sliceSize := n,
                isSlice := true, isGroup := true }
      else
        .ok { rawType := typeStr, baseType := parts.headD "", sliceSize := n,
              isSlice := true, isGroup := false }
  else
    .ok { rawType := typeStr, baseType := parts.headD "", sliceSize := 0,
          isSlice := false, isGroup := false }

/-! ## Base-kind converters (`stringConverter`, `boolConverter`, `intConverter`,
`floatConverter` in `args.go`) -/

/-- Model of `stringConverter.Convert`: the identity, never fails. -/
def strConvert (s : String) : Except GoErr String := .ok s

/-- Model of `boolConverter.Convert`: lower-case the raw value and accept
exactly `true` and `false`. -/
def boolConvert (s : String) : Except GoErr Bool :=
  if strToLower s = "true" then .ok true
  else if strToLower s = "false" then .ok false
  else .error (.invalidBooleanValue ("expected \x27true\x27 or \x27false\x27, got \x27" ++ s ++ "\x27"))

/-- Model of `intConverter.Convert` via `strconv.Atoi`. -/
def intConvert (s : String) : Except GoErr Int :=
  match goAtoi s with
  | some n => .ok n
  | none => .error (.invalidIntegerValue ("expected integer, got \x27" ++ s ++ "\x27"))

/-- Opaque model of a decoded Go `float64`.  No claim observes floating-point
arithmetic, so a successfully parsed float is represented by its raw literal;
`zero` stands for the Go constant `0` used as the accessor default. -/
inductive FloatVal where
  | zero : FloatVal
  | lit (raw : String) : FloatVal
deriving DecidableEq, Repr

/-- Modelled from the spec: "integer and floating-point values use standard
textual numeric parsing".  Syntactic acceptance test standing in for
`strconv.ParseFloat` (which lives in the Go standard library, outside this
repository): an optional sign, then either a decimal mantissa with optional
fraction and optional exponent, or the case-insensitive special values
`inf`, `infinity`, `nan`.  Hexadecimal floats and digit underscores are not
modelled; no claim depends on the exact acceptance set. -/
def goParseFloatAccepts (s : String) : Bool :=
  let cs := s.data
  let cs := match cs with
    | c :: rest => if c = '+' || c = '-' then rest else cs
    | [] => cs
  let low := cs.map goToLowerChar
  if low = "inf".data || low = "infinity".data || low = "nan".data then true
  else
    let intPart := cs.takeWhile goIsDigit
    let rest := cs.drop intPart.length
    let fracOk : Bool × List Char :=
      match rest with
      | '.' :: fs =>
        let frac := fs.takeWhile goIsDigit
        (!intPart.isEmpty || !frac.isEmpty, fs.drop frac.length)
      | _ => (!intPart.isEmpty, rest)
    match fracOk with
    | (ok, after) =>
      if !ok then false
      else match after with
        | [] => true
        | e :: es =>
          if e = 'e' || e = 'E' then
            let es := match es with
              | c :: rest2 => if c = '+' || c = '-' then rest2 else es
              | [] => es
            !es.isEmpty && es.all goIsDigit
          else false

/-- Model of `floatConverter.Convert`. -/
def floatConvert (s : String) : Except GoErr FloatVal :=
  if goParseFloatAccepts s then .ok (.lit s)
  else .error (.invalidFloatValue ("expected float, got \x27" ++ s ++ "\x27"))

example : parseTypeInfo "str/3" =
    .ok { rawType := "str/3", baseType := "str", sliceSize := 3,
          isSlice := true, isGroup := false } := by decide
example : parseTypeInfo "str/2/2" =
    .ok { rawType := "str/2/2", baseType := "str", sliceSize := 2,
          isSlice := true, isGroup := true } := by decide
example : parseTypeInfo "str/abc" = .error (.invalidTypeString "str/abc") := by decide
example : parseTypeInfo "str/1/2/3/4" = .error (.invalidTypeString "str/1/2/3/4") := by decide
example : boolConvert "TrUe" = .ok true := by decide
example : goAtoi "-42" = some (-42) := by decide
example : goAtoi "12.34" = none := by decide
example : goParseFloatAccepts "3.14" = true := by decide
example : goParseFloatAccepts "not-a-float" = false := by decide

/-! ## The external store (process environment) -/

/-- Model of the process environment: a read-only association list from
variable names to values.  `os.LookupEnv` is the first-match lookup. -/
abbrev Env := List (String × String)

/-- Model of `os.LookupEnv`. -/
def lookupEnv (env : Env) (k : String) : Option String := env.lookup k

/-- Model of `strings.Fields`: split on runs of whitespace, no empty fields.
The first argument accumulates the current field in reverse. -/
def goFieldsAux (acc : List Char) : List Char → List String
  | [] => if acc.isEmpty then [] else [⟨acc.reverse⟩]
  | c :: cs =>
    if goIsSpace c then
      if acc.isEmpty then goFieldsAux [] cs
      else (⟨acc.reverse⟩ : String) :: goFieldsAux [] cs
    else goFieldsAux (c :: acc) cs

/-- Model of `strings.Fields`. -/
def goFields (s : String) : List String := goFieldsAux [] s.data

/-- Key of the `OMNI_ARG_<NAME>_TYPE[_<i>]` environment variable
(`getArgType` builds it with `strings.Join` on `_`). -/
def typeKey (name : String) (index : Option Nat) : String :=
  String.intercalate "_"
    (["OMNI_ARG", strToUpper name, "TYPE"] ++ (match index with
      | some i => [toString i]
      | none => []))

/-- Key of the `OMNI_ARG_<NAME>_VALUE[_<i>[_<j>]]` environment variable. -/
def valueKey (name : String) (index groupIndex : Option Nat) : String :=
  String.intercalate "_"
    (["OMNI_ARG", strToUpper name, "VALUE"] ++ (match index with
      | some i => [toString i]
      | none => []) ++ (match groupIndex with
      | some j => [toString j]
      | none => []))

/-- Model of `getArgType`: look the type key up and parse it; a missing key
is an `ArgTypeMissingError` naming the argument and index. -/
def getArgType (env : Env) (name : String) (index : Option Nat) : Except GoErr TypeInfo :=
  match lookupEnv env (typeKey name index) with
  | none => .error (.argTypeMissing name index)
  | some typeStr => parseTypeInfo typeStr

/-- Model of `getArgList`: read `OMNI_ARG_LIST`, fail if absent, split into
whitespace-separated fields and lower-case each. -/
def getArgList (env : Env) : Except GoErr (List String) :=
  match lookupEnv env "OMNI_ARG_LIST" with
  | none => .error .argListMissing
  | some s => .ok ((goFields s).map strToLower)

/-- Model of `getArgValue`: look the value key up; absence yields `none`
(a nil pointer, "declared but unset"), presence runs the converter. -/
def getArgValue {T : Type} (env : Env) (name : String) (index groupIndex : Option Nat)
    (conv : String → Except GoErr T) : Except GoErr (Option T) :=
  match lookupEnv env (valueKey name index groupIndex) with
  | none => .ok none
  | some raw => (conv raw).map some

/-- Model of `handleSingleValue`: fetch the single (unindexed) value. -/
def handleSingleValue {T : Type} (env : Env) (name : String)
    (conv : String → Except GoErr T) : Except GoErr (Option T) :=
  getArgValue env name none none conv

/-- Model of the loop body of `handleSliceValue` / the inner loop of
`handleGroupValue`: fetch values for indices `0 .. n-1`. -/
def handleSliceValue {T : Type} (env : Env) (name : String) (sliceSize : Int)
    (conv : String → Except GoErr T) : Except GoErr (List (Option T)) :=
  (List.range sliceSize.toNat).mapM fun i => getArgValue env name (some i) none conv

/-- Model of one outer iteration of `handleGroupValue`: fetch the per-index
type descriptor (`getArgType` with the index — a hard error when missing),
then fetch that many doubly-indexed values. -/
def decodeGroupIndex {T : Type} (env : Env) (name : String)
    (conv : String → Except GoErr T) (i : Nat) : Except GoErr (List (Option T)) :=
  match getArgType env name (some i) with
  | .error e => .error e
  | .ok groupTypeInfo =>
    (List.range groupTypeInfo.sliceSize.toNat).mapM fun j =>
      getArgValue env name (some i) (some j) conv

/-- Model of `handleGroupValue`.  Go's `values[i] = groupValues` always
assigns a non-nil inner slice, hence the `some` wrapping. -/
def handleGroupValue {T : Type} (env : Env) (name : String) (sliceSize : Int)
    (conv : String → Except GoErr T) : Except GoErr (List (Option (List (Option T)))) :=
  match (List.range sliceSize.toNat).mapM (decodeGroupIndex env name conv) with
  | .error e => .error e
  | .ok vs => .ok (vs.map some)

/-! ## The value store (`Args` in `args.go`)

Go's `map[string]*T` is modelled as an association list from names to
`Option T`, where the inner `none` is a nil pointer ("declared but unset")
and an absent key is a lookup miss.  A `[]*T` map value is `Option (List
(Option T))` (the slice itself may be nil), and a `[][]*T` map value adds one
more such layer. -/

/-- Insert with overwrite, preserving the map semantics of Go maps:
the new binding shadows and removes any previous binding of the key. -/
def mapInsert {α : Type} (k : String) (v : α) (m : List (String × α)) : List (String × α) :=
  (k, v) :: m.filter fun p => !(p.1 == k)

/-- Model of the `Args` struct. -/
structure Args where
  declaredArgs : List (String × TypeInfo)
  strings : List (String × Option String)
  bools : List (String × Option Bool)
  ints : List (String × Option Int)
  floats : List (String × Option FloatVal)
  stringSlices : List (String × Option (List (Option String)))
  boolSlices : List (String × Option (List (Option Bool)))
  intSlices : List (String × Option (List (Option Int)))
  floatSlices : List (String × Option (List (Option FloatVal)))
  stringGroups : List (String × Option (List (Option (List (Option String)))))
  boolGroups : List (String × Option (List (Option (List (Option Bool)))))
  intGroups : List (String × Option (List (Option (List (Option Int)))))
  floatGroups : List (String × Option (List (Option (List (Option FloatVal)))))
deriving DecidableEq, Repr

/-- Model of `NewArgs`: every map empty. -/
def NewArgs : Args :=
  { declaredArgs := [], strings := [], bools := [], ints := [], floats := [],
    stringSlices := [], boolSlices := [], intSlices := [], floatSlices := [],
    stringGroups := [], boolGroups := [], intGroups := [], floatGroups := [] }

/-- Model of the generic `getSingle`: look the lower-cased name up; a lookup
miss returns `(default, false)`, a nil pointer returns `(default, ok)` with
`ok = true`, and a set pointer returns the value with `true`. -/
def getSingle {T : Type} (name : String) (values : List (String × Option T))
    (defaultValue : T) : T × Bool :=
  match values.lookup (strToLower name) with
  | none => (defaultValue, false)
  | some none => (defaultValue, true)
  | some (some v) => (v, true)

/-- Model of the generic `getSlice`.  The first component is `none` exactly
when Go returns a nil slice (lookup miss). -/
def getSlice {T : Type} (name : String) (slices : List (String × Option (List (Option T))))
    (defaultValue : T) : Option (List T) × Bool :=
  match slices.lookup (strToLower name) with
  | none => (none, false)
  | some none => (some [], true)
  | some (some ptr) => (some (ptr.map fun p => p.getD defaultValue), true)

/-- Model of the generic `getGroups`; nil inner slices materialize as empty,
nil leaf pointers as the default value. -/
def getGroups {T : Type} (name : String)
    (groups : List (String × Option (List (Option (List (Option T))))))
    (defaultValue : T) : Option (List (List T)) × Bool :=
  match groups.lookup (strToLower name) with
  | none => (none, false)
  | some none => (some [], true)
  | some (some ptr) =>
    (some (ptr.map fun p =>
      match p with
      | none => []
      | some inner => inner.map fun q => q.getD defaultValue), true)

/-- Model of `Args.GetString`. -/
def GetString (a : Args) (name : String) : String × Bool := getSingle name a.strings ""

/-- Model of `Args.GetBool`. -/
def GetBool (a : Args) (name : String) : Bool × Bool := getSingle name a.bools false

/-- Model of `Args.GetInt`. -/
def GetInt (a : Args) (name : String) : Int × Bool := getSingle name a.ints 0

/-- Model of `Args.GetFloat`. -/
def GetFloat (a : Args) (name : String) : FloatVal × Bool := getSingle name a.floats .zero

/-- Model of `Args.GetStringSlice`. -/
def GetStringSlice (a : Args) (name : String) : Option (List String) × Bool :=
  getSlice name a.stringSlices ""

/-- Model of `Args.GetBoolSlice`. -/
def GetBoolSlice (a : Args) (name : String) : Option (List Bool) × Bool :=
  getSlice name a.boolSlices false

/-- Model of `Args.GetIntSlice`. -/
def GetIntSlice (a : Args) (name : String) : Option (List Int) × Bool :=
  getSlice name a.intSlices 0

/-- Model of `Args.GetFloatSlice`. -/
def GetFloatSlice (a : Args) (name : String) : Option (List FloatVal) × Bool :=
  getSlice name a.floatSlices .zero

/-- Model of `Args.GetStringGroups`. -/
def GetStringGroups (a : Args) (name : String) : Option (List (List String)) × Bool :=
  getGroups name a.stringGroups ""

/-- Model of `Args.GetBoolGroups`. -/
def GetBoolGroups (a : Args) (name : String) : Option (List (List Bool)) × Bool :=
  getGroups name a.boolGroups false

/-- Model of `Args.GetIntGroups`. -/
def GetIntGroups (a : Args) (name : String) : Option (List (List Int)) × Bool :=
  getGroups name a.intGroups 0

/-- Model of `Args.GetFloatGroups`. -/
def GetFloatGroups (a : Args) (name : String) : Option (List (List FloatVal)) × Bool :=
  getGroups name a.floatGroups .zero

/-- Untyped values as they appear in the `map[string]interface{}` returned by
`GetAllArgs`. -/
inductive GoVal where
  | str (s : String) : GoVal
  | bool (b : Bool) : GoVal
  | int (i : Int) : GoVal
  | float (f : FloatVal) : GoVal
deriving DecidableEq, Repr

/-- Model of one iteration of the `Args.GetAllArgs` loop: dispatch on the
declared base kind and insert the scalar accessor's value when its flag is
true. -/
def getAllArgsStep (a : Args) (result : List (String × GoVal)) (p : String × TypeInfo) :
    List (String × GoVal) :=
  if p.2.baseType = "bool" then
    if (GetBool a p.1).2 then mapInsert p.1 (.bool (GetBool a p.1).1) result else result
  else if p.2.baseType = "int" then
    if (GetInt a p.1).2 then mapInsert p.1 (.int (GetInt a p.1).1) result else result
  else if p.2.baseType = "float" then
    if (GetFloat a p.1).2 then mapInsert p.1 (.float (GetFloat a p.1).1) result else result
  else
    if (GetString a p.1).2 then mapInsert p.1 (.str (GetString a p.1).1) result else result

/-- Model of `Args.GetAllArgs`: iterate the declared arguments and, per base
kind, insert the scalar accessor's value when its flag is true. -/
def GetAllArgs (a : Args) : List (String × GoVal) :=
  a.declaredArgs.foldl (getAllArgsStep a) []

/-! ## The environment decoder (`ParseArgs` in `args.go`) -/

/-- Model of one iteration of the `ParseArgs` loop: fetch and record the
declared type, then dispatch `handleValue` on the base kind (group shape
first, then slice, then single), storing into the matching typed map.
Unknown base kinds default to the string branch. -/
def decodeArg (env : Env) (a : Args) (name : String) : Except GoErr Args :=
  match getArgType env name none with
  | .error e => .error e
  | .ok ti =>
    let a1 := { a with declaredArgs := mapInsert name ti a.declaredArgs }
    if ti.baseType = "bool" then
      if ti.isGroup then
        match handleGroupValue env name ti.sliceSize boolConvert with
        | .error e => .error e
        | .ok v => .ok { a1 with boolGroups := mapInsert name (some v) a1.boolGroups }
      else if ti.isSlice then
        match handleSliceValue env name ti.sliceSize boolConvert with
        | .error e => .error e
        | .ok v => .ok { a1 with boolSlices := mapInsert name (some v) a1.boolSlices }
      else
        match handleSingleValue env name boolConvert with
        | .error e => .error e
        | .ok v => .ok { a1 with bools := mapInsert name v a1.bools }
    else if ti.baseType = "int" then
      if ti.isGroup then
        match handleGroupValue env name ti.sliceSize intConvert with
        | .error e => .error e
        | .ok v => .ok { a1 with intGroups := mapInsert name (some v) a1.intGroups }
      else if ti.isSlice then
        match handleSliceValue env name ti.sliceSize intConvert with
        | .error e => .error e
        | .ok v => .ok { a1 with intSlices := mapInsert name (some v) a1.intSlices }
      else
        match handleSingleValue env name intConvert with
        | .error e => .error e
        | .ok v => .ok { a1 with ints := mapInsert name v a1.ints }
    else if ti.baseType = "float" then
      if ti.isGroup then
        match handleGroupValue env name ti.sliceSize floatConvert with
        | .error e => .error e
        | .ok v => .ok { a1 with floatGroups := mapInsert name (some v) a1.floatGroups }
      else if ti.isSlice then
        match handleSliceValue env name ti.sliceSize floatConvert with
        | .error e => .error e
        | .ok v => .ok { a1 with floatSlices := mapInsert name (some v) a1.floatSlices }
      else
        match handleSingleValue env name floatConvert with
        | .error e => .error e
        | .ok v => .ok { a1 with floats := mapInsert name v a1.floats }
    else
      if ti.isGroup then
        match handleGroupValue env name ti.sliceSize strConvert with
        | .error e => .error e
        | .ok v => .ok { a1 with stringGroups := mapInsert name (some v) a1.stringGroups }
      else if ti.isSlice then
        match handleSliceValue env name ti.sliceSize strConvert with
        | .error e => .error e
        | .ok v => .ok { a1 with stringSlices := mapInsert name (some v) a1.stringSlices }
      else
        match handleSingleValue env name strConvert with
        | .error e => .error e
        | .ok v => .ok { a1 with strings := mapInsert name v a1.strings }

/-- Model of `ParseArgs` up to its first `return nil, err`: read the declared
list and fold the per-argument decoding over it. -/
def ParseArgsE (env : Env) : Except GoErr Args :=
  match getArgList env with
  | .error e => .error e
  | .ok argList => argList.foldlM (decodeArg env) NewArgs

/-- Model of `ParseArgs` (without target structs), keeping Go's two-value
return shape `(*Args, error)`: every `return nil, err` in the source becomes
`(none, some err)` and the success return becomes `(some args, none)`. -/
def ParseArgs (env : Env) : Option Args × Option GoErr :=
  match ParseArgsE env with
  | .ok a => (some a, none)
  | .error e => (none, some e)

section SanityChecks

example : ParseArgs [] = (none, some .argListMissing) := by decide

example :
    (ParseArgs [("OMNI_ARG_LIST", "foo"), ("OMNI_ARG_FOO_TYPE", "str"),
      ("OMNI_ARG_FOO_VALUE", "hello")]).1.map (fun a => GetString a "foo") =
      some ("hello", true) := by decide

example :
    (ParseArgs [("OMNI_ARG_LIST", "foo"), ("OMNI_ARG_FOO_TYPE", "str")]).1.map
      (fun a => GetString a "foo") = some ("", true) := by decide

example :
    (ParseArgs [("OMNI_ARG_LIST", "nums"), ("OMNI_ARG_NUMS_TYPE", "int/3"),
      ("OMNI_ARG_NUMS_VALUE_0", "1"), ("OMNI_ARG_NUMS_VALUE_2", "3")]).1.map
      (fun a => GetIntSlice a "nums") = some (some [1, 0, 3], true) := by decide

end SanityChecks

/-! ## The tag mini-language (`internal/omniarg`) -/

/-- Model of `strings.HasPrefix` (character-level; ASCII-faithful). -/
def strStartsWith (s pre : String) : Bool := pre.data.isPrefixOf s.data

/-- Model of `strings.HasSuffix`. -/
def strEndsWith (s suf : String) : Bool := suf.data.isSuffixOf s.data

/-- Model of Go slicing `s[n:]` (ASCII byte = character). -/
def strDrop (s : String) (n : Nat) : String := ⟨s.data.drop n⟩

/-- Model of Go slicing `s[:len(s)-n]`. -/
def strDropRight (s : String) (n : Nat) : String := ⟨s.data.take (s.data.length - n)⟩

/-- Model of `strings.TrimSpace` (ASCII whitespace). -/
def goTrimSpace (s : String) : String :=
  ⟨((s.data.dropWhile goIsSpace).reverse.dropWhile goIsSpace).reverse⟩

/-- Model of `strings.Trim(s, "\"")`: strip all leading and trailing
double-quote characters. -/
def trimQuoteEnds (s : String) : String :=
  ⟨((s.data.dropWhile fun c => c == '"').reverse.dropWhile fun c => c == '"').reverse⟩

/-- State of the `specialSplit` scan: accumulated parts, the current token,
whether the scan is inside double quotes, the parenthesis nesting count
(a Go `int`: it may go negative on unbalanced input), and whether the
previous character opened a backslash escape. -/
structure SplitSt where
  parts : List String
  current : List Char
  inQuote : Bool
  inParens : Int
  escaped : Bool
deriving DecidableEq, Repr

/-- Model of one iteration of the `specialSplit` character loop, including
the post-switch reset of the escape flag. -/
def splitStep (sep : Char) (respectQuotes respectParens : Bool) (st : SplitSt) (r : Char) :
    SplitSt :=
  let st1 :=
    if r = sep then
      if st.inQuote || st.inParens > 0 then { st with current := st.current ++ [r] }
      else { st with parts := st.parts ++ [(⟨st.current⟩ : String)], current := [] }
    else if r = '\\' then { st with escaped := !st.escaped, current := st.current ++ [r] }
    else if r = '"' then
      let st2 := if respectQuotes && !st.escaped then { st with inQuote := !st.inQuote } else st
      { st2 with current := st2.current ++ [r] }
    else if r = '(' then
      let st2 := if respectParens then { st with inParens := st.inParens + 1 } else st
      { st2 with current := st2.current ++ [r] }
    else if r = ')' then
      let st2 := if respectParens then { st with inParens := st.inParens - 1 } else st
      { st2 with current := st2.current ++ [r] }
    else { st with current := st.current ++ [r] }
  if st1.escaped && !(r = '\\') then { st1 with escaped := false } else st1

/-- Initial state of the `specialSplit` scan. -/
def splitInit : SplitSt :=
  { parts := [], current := [], inQuote := false, inParens := 0, escaped := false }

/-- Model of `specialSplit`: fold the step over the characters, then append
the final token only when it is non-empty. -/
def specialSplit (s : String) (sep : Char) (respectQuotes respectParens : Bool) :
    List String :=
  let st := s.data.foldl (splitStep sep respectQuotes respectParens) splitInit
  if st.current.isEmpty then st.parts else st.parts ++ [(⟨st.current⟩ : String)]

/-- Values stored in the tag options map (`map[string]interface{}` in Go). -/
inductive TagValue where
  | str (s : String) : TagValue
  | bool (b : Bool) : TagValue
  | strList (l : List String) : TagValue
  | condMap (m : List (String × String)) : TagValue
deriving DecidableEq, Repr

/-- Model of `strings.SplitN(part, "=", 2)`: the text before the first `=`
and everything after it. -/
def tagSplitN2 (part : String) : String × String :=
  (⟨part.data.takeWhile fun c => !(c == '=')⟩,
   ⟨(part.data.dropWhile fun c => !(c == '=')).tail⟩)

/-- Model of the `type=` normalization inside `ParseTag`: peel an
`array/`-or-`[..]` wrapper, then an `enum(..)`-or-bare-`(..)` wrapper whose
contents become the comma-split `values` list. -/
def parseTypeOption (value : String) : String × Option (List String) :=
  let p1 : String × Bool :=
    if strStartsWith value "array/" then (strDrop value 6, true)
    else if strStartsWith value "[" && strEndsWith value "]" then
      (strDrop (strDropRight value 1) 1, true)
    else (value, false)
  let p2 : String × Option (List String) :=
    if strStartsWith p1.1 "(" && strEndsWith p1.1 ")" then
      ("enum", some (goSplit (strDrop (strDropRight p1.1 1) 1) ','))
    else if strStartsWith p1.1 "enum(" && strEndsWith p1.1 ")" then
      ("enum", some (goSplit (strDrop (strDropRight p1.1 1) 5) ','))
    else (p1.1, none)
  (if p1.2 then "array/" ++ p2.1 else p2.1, p2.2)

/-- Model of the `key=value` dispatch of the `ParseTag` loop body. -/
def applyTagOption (options : List (String × TagValue)) (part : String) :
    List (String × TagValue) :=
  let kv := tagSplitN2 part
  let key := goTrimSpace kv.1
  let value := trimQuoteEnds (goTrimSpace kv.2)
  if key == "aliases" then mapInsert key (.strList (goSplit value ',')) options
  else if key == "positional" || key == "required" || key == "last" || key == "leftovers"
      || key == "allow_hyphen_values" || key == "allow_negative_numbers"
      || key == "group_occurrences" then
    mapInsert key (.bool (value == "true")) options
  else if key == "requires" || key == "conflicts_with" || key == "required_without"
      || key == "required_without_all" then
    mapInsert key (.strList (goSplit value ',')) options
  else if key == "required_if_eq" || key == "required_if_eq_all" then
    let conditions := (goSplit value ',').foldl (fun conds pair =>
      let kv2 := goSplit pair ':'
      if kv2.length = 2 then
        mapInsert (goTrimSpace (kv2.getD 0 "")) (goTrimSpace (kv2.getD 1 "")) conds
      else conds) []
    mapInsert key (.condMap conditions) options
  else if key == "type" then
    let tv := parseTypeOption value
    let options1 := match tv.2 with
      | some vals => mapInsert "values" (TagValue.strList vals) options
      | none => options
    let options2 := match options1.lookup "values" with
      | some (TagValue.strList vals) =>
        mapInsert "values" (TagValue.strList (vals.map goTrimSpace)) options1
      | _ => options1
    mapInsert "type" (TagValue.str tv.1) options2
  else if key == "placeholders" || key == "placeholder" then
    mapInsert "placeholders" (.strList ((goSplit value ' ').map goTrimSpace)) options
  else mapInsert key (.str value) options

/-- Model of one iteration of the `ParseTag` loop over the split parts:
`key=value` tokens go through the option dispatch, and the first bare token
becomes the name override. -/
def parseTagPart (st : String × List (String × TagValue)) (part : String) :
    String × List (String × TagValue) :=
  if part.data.contains '=' then (st.1, applyTagOption st.2 part)
  else if st.1 == "" then (goTrimSpace part, st.2)
  else st

/-- Model of `omniarg.ParseTag`: tokenize with the quote- and paren-aware
splitter on spaces, then fold the part handler. -/
def ParseTag (tag : String) : String × List (String × TagValue) :=
  (specialSplit tag ' ' true true).foldl parseTagPart ("", [])

/-- Model of the loop of `omniarg.SanitizeArgName`.  The accumulator holds
the output in reverse so that the "previous emitted character" is its head;
`isFirst` tracks Go's `i > 0` test on the input index. -/
def sanitizeLoop (separator : Char) : Bool → List Char → List Char → List Char
  | _, acc, [] => acc
  | isFirst, acc, c :: cs =>
    if goIsAlnum c then sanitizeLoop separator false (c :: acc) cs
    else
      let acc2 :=
        if !isFirst && !acc.isEmpty && !(acc.headD separator == separator) then separator :: acc
        else acc
      sanitizeLoop separator false acc2 cs

/-- Model of `omniarg.SanitizeArgName`: replace non-alphanumeric runs by the
separator, never leading and never doubled, drop a trailing separator, and
lower-case. -/
def SanitizeArgName (name : String) (separator : Char) : String :=
  let result := sanitizeLoop separator true [] name.data
  let result2 :=
    if !result.isEmpty && result.headD separator == separator then result.tail else result
  strToLower ⟨result2.reverse⟩

/-! ## Identifier-to-name conversion (`toParamName` in `paramname.go`) -/

/-- Model of the `toParamName` loop body: an underscore is inserted before an
upper-case character when it is not the first character and either the
previous character is lower-case or the next one is.  `prev` is the previous
character of the input (`name[i-1]`), `rest` begins with the next one. -/
def toParamAux (prev : Option Char) : List Char → List Char
  | [] => []
  | c :: rest =>
    if goIsUpper c then
      let need :=
        match prev with
        | none => false
        | some p => goIsLower p || (match rest with
          | [] => false
          | n :: _ => goIsLower n)
      (if need then ['_', goToLowerChar c] else [goToLowerChar c]) ++ toParamAux (some c) rest
    else c :: toParamAux (some c) rest

/-- Model of `toParamName`. -/
def toParamName (name : String) : String := ⟨toParamAux none name.data⟩

/-! ## The structural binder (`Args.Fill`), restricted to the fragment the
claims exercise: a flat struct of exported, non-pointer scalar fields.
Embedded structs and slice/group fields only add more iterations of the same
per-field loop and are not needed to settle any claim. -/

/-- Scalar Go field types supported by `fillSingleField`. -/
inductive FieldTy where
  | str : FieldTy
  | bool : FieldTy
  | int : FieldTy
  | float : FieldTy
deriving DecidableEq, Repr

/-- Expected store base kind for a field type (`validateFieldType`). -/
def expectedTypeOf : FieldTy → String
  | .str => "str"
  | .bool => "bool"
  | .int => "int"
  | .float => "float"

/-- Model of one struct field of a `Fill` target: its Go identifier, its
optional `omniarg` tag, its scalar type, and its current value. -/
structure MField where
  fieldName : String
  tag : Option String
  ty : FieldTy
  value : GoVal
deriving DecidableEq, Repr

/-- Result of the argument-name resolution step of the `Fill` loop. -/
inductive NameRes where
  | skip : NameRes
  | missingName : NameRes
  | name (s : String) : NameRes
deriving DecidableEq, Repr

/-- Model of the argument-name resolution in `Args.Fill`: a `-` tag skips the
field; otherwise, when a tag is present and `ParseTag` extracts a non-empty
override, the source assigns the whole tag (`argName = tag`); without a tag
the name derives from the identifier via `toParamName`.  The result is then
sanitized (empty is an error) and prefixed. -/
def fillResolveName (tag : Option String) (fieldName : String) (currentPre : String) :
    NameRes :=
  match tag with
  | some t =>
    if t == "-" then .skip
    else
      let argName := if (ParseTag t).1 != "" then t else ""
      let s := SanitizeArgName argName '_'
      if s == "" then .missingName else .name (currentPre ++ s)
  | none =>
    let s := SanitizeArgName (toParamName fieldName) '_'
    if s == "" then .missingName else .name (currentPre ++ s)

/-- Model of `validateFieldType` for a scalar (non-slice, non-group) field. -/
def validateFieldScalar (fieldName : String) (ty : FieldTy) (ti : TypeInfo) : Option GoErr :=
  if ti.baseType != expectedTypeOf ty then
    some (.typeMismatch fieldName (expectedTypeOf ty) ti.baseType)
  else if ti.isGroup then
    some (.errorf ("field \"" ++ fieldName ++ "\" is not for grouped occurrences but argument is"))
  else if ti.isSlice then
    some (.errorf ("field \"" ++ fieldName ++ "\" is not a slice but argument is"))
  else none

/-- Model of `fillSingleField` for a non-pointer field: a missing or nil map
entry sets the zero value, a set entry copies the pointed-to value. -/
def fillScalarValue (a : Args) (ty : FieldTy) (argName : String) : GoVal :=
  match ty with
  | .str =>
    match a.strings.lookup argName with
    | some (some v) => .str v
    | _ => .str ""
  | .bool =>
    match a.bools.lookup argName with
    | some (some v) => .bool v
    | _ => .bool false
  | .int =>
    match a.ints.lookup argName with
    | some (some v) => .int v
    | _ => .int 0
  | .float =>
    match a.floats.lookup argName with
    | some (some v) => .float v
    | _ => .float .zero

/-- Model of one iteration of the `Fill` field loop: resolve the name, look
it up among the declared arguments (a miss is a hard error), validate the
type, and produce the updated field.  `ok none` means the field was skipped. -/
def fillFieldStep (a : Args) (currentPre : String) (f : MField) :
    Except GoErr (Option MField) :=
  match fillResolveName f.tag f.fieldName currentPre with
  | .skip => .ok none
  | .missingName => .error (.errorf ("field \"" ++ f.fieldName ++ "\": missing argument name"))
  | .name argName =>
    match a.declaredArgs.lookup argName with
    | none =>
      .error (.errorf ("field \"" ++ f.fieldName ++ "\": parameter \"" ++ argName
        ++ "\" not found"))
    | some ti =>
      match validateFieldScalar f.fieldName f.ty ti with
      | some e => .error e
      | none => .ok (some { f with value := fillScalarValue a f.ty argName })

/-- Model of the `Args.Fill` field loop over a flat scalar target.  The
returned list is the target after the call: fields processed before an error
keep their newly written values (Go mutates the caller's struct in place and
returns on the first error), and the failing field with all later fields keep
their prior values. -/
def fillStruct (a : Args) (currentPre : String) : List MField → List MField × Option GoErr
  | [] => ([], none)
  | f :: rest =>
    match fillFieldStep a currentPre f with
    | .error e => (f :: rest, some e)
    | .ok none =>
      match fillStruct a currentPre rest with
      | (rest2, e) => (f :: rest2, e)
    | .ok (some f2) =>
      match fillStruct a currentPre rest with
      | (rest2, e) => (f2 :: rest2, e)

section SanityChecksTag

example : specialSplit "a b c" ' ' true true = ["a", "b", "c"] := by decide
example : specialSplit "type=enum(a,b,c) required=true" ' ' true true =
    ["type=enum(a,b,c)", "required=true"] := by decide
example : specialSplit "a \"b c\" d" ' ' true true = ["a", "\"b c\"", "d"] := by decide
example : (ParseTag "flag-name").1 = "flag-name" := by decide
example : (ParseTag "files type=[string]").2.lookup "type" = some (.str "array/string") := by
  decide
example : (ParseTag "mode type=enum(fast, normal, careful)").2.lookup "values" =
    some (.strList ["fast", "normal", "careful"]) := by decide
example : SanitizeArgName "flag-name" '_' = "flag_name" := by decide
example : toParamName "DBConnection" = "db_connection" := by decide
example : toParamName "MaxRPSLimit" = "max_rps_limit" := by decide

end SanityChecksTag

/-! ## Supporting lemmas for the identifier-to-name conversion -/

theorem goIsUpper_goToLowerChar (c : Char) (h : goIsUpper c = true) :
    goIsUpper (goToLowerChar c) = false := by
  simp only [goIsUpper, Bool.and_eq_true, decide_eq_true_eq] at h
  have ht := goToLowerChar_toNat c
  rw [if_pos h] at ht
  simp only [goIsUpper, ht, Bool.and_eq_false_iff, decide_eq_false_iff_not]
  omega

theorem toParamAux_no_upper (cs : List Char) :
    ∀ prev, ∀ x ∈ toParamAux prev cs, goIsUpper x = false := by
  induction cs with
  | nil => intro prev x hx; simp [toParamAux] at hx
  | cons c rest ih =>
    intro prev x hx
    by_cases hc : goIsUpper c = true
    · simp only [toParamAux, hc, if_true, List.mem_append] at hx
      rcases hx with hx | hx
      · split at hx
        · simp only [List.mem_cons, List.not_mem_nil, or_false] at hx
          rcases hx with hx | hx
          · subst hx; decide
          · subst hx; exact goIsUpper_goToLowerChar c hc
        · simp only [List.mem_cons, List.not_mem_nil, or_false] at hx
          subst hx; exact goIsUpper_goToLowerChar c hc
      · exact ih (some c) x hx
    · have hc2 : goIsUpper c = false := by
        cases hgoal : goIsUpper c with
        | false => rfl
        | true => exact absurd hgoal hc
      simp only [toParamAux, hc2, Bool.false_eq_true, if_false, List.mem_cons] at hx
      rcases hx with hx | hx
      · subst hx; exact hc2
      · exact ih (some c) x hx

theorem toParamAux_fixed (cs : List Char) (h : ∀ x ∈ cs, goIsUpper x = false) :
    ∀ prev, toParamAux prev cs = cs := by
  induction cs with
  | nil => intro prev; rfl
  | cons c rest ih =>
    intro prev
    have hc : goIsUpper c = false := h c (by simp)
    simp only [toParamAux, hc, Bool.false_eq_true, if_false, List.cons.injEq, true_and]
    exact ih (fun x hx => h x (by simp [hx])) (some c)

/-- C6: the identifier-to-name conversion maps `LogFile` to `log_file`,
`UserID` to `user_id`, `OOMReason` to `oom_reason`, `HTTPConfig` to
`http_config`, and `EnableTLSV12Support` to `enable_tlsv12_support`, and is
idempotent: re-applying `toParamName` to any already-converted string is a
no-op. -/
theorem C6_toParamName_examples_and_idempotent :
    toParamName "LogFile" = "log_file" ∧
    toParamName "UserID" = "user_id" ∧
    toParamName "OOMReason" = "oom_reason" ∧
    toParamName "HTTPConfig" = "http_config" ∧
    toParamName "EnableTLSV12Support" = "enable_tlsv12_support" ∧
    ∀ s : String, toParamName (toParamName s) = toParamName s := by
  refine ⟨by decide, by decide, by decide, by decide, by decide, fun s => ?_⟩
  apply String.ext
  show toParamAux none (toParamAux none s.data) = toParamAux none s.data
  exact toParamAux_fixed _ (toParamAux_no_upper s.data none) none

/-- C7: the boolean converter accepts exactly the raw strings whose
lower-casing is `true` or `false` (so `TrUe` converts to `true`), and every
other raw value produces an `InvalidBooleanValueError` whose message embeds
the offending raw value. -/
theorem C7_boolConverter_case_insensitive :
    (∀ s : String, (∃ b, boolConvert s = .ok b) ↔
      (strToLower s = "true" ∨ strToLower s = "false")) ∧
    (∀ s : String, strToLower s = "true" → boolConvert s = .ok true) ∧
    (∀ s : String, strToLower s = "false" → boolConvert s = .ok false) ∧
    boolConvert "TrUe" = .ok true ∧
    (∀ s : String, strToLower s ≠ "true" → strToLower s ≠ "false" →
      boolConvert s = .error (.invalidBooleanValue
        ("expected \x27true\x27 or \x27false\x27, got \x27" ++ s ++ "\x27"))) := by
  refine ⟨fun s => ?_, fun s h => ?_, fun s h => ?_, by decide, fun s h1 h2 => ?_⟩
  · constructor
    · intro ⟨b, hb⟩
      unfold boolConvert at hb
      by_cases h1 : strToLower s = "true"
      · exact Or.inl h1
      · by_cases h2 : strToLower s = "false"
        · exact Or.inr h2
        · rw [if_neg h1, if_neg h2] at hb; exact absurd hb (by simp)
    · intro h
      rcases h with h | h
      · exact ⟨true, by unfold boolConvert; rw [if_pos h]⟩
      · by_cases h1 : strToLower s = "true"
        · exact ⟨true, by unfold boolConvert; rw [if_pos h1]⟩
        · exact ⟨false, by unfold boolConvert; rw [if_neg h1, if_pos h]⟩
  · unfold boolConvert; rw [if_pos h]
  · by_cases h1 : strToLower s = "true"
    · rw [h1] at h; exact absurd h (by decide)
    · unfold boolConvert; rw [if_neg h1, if_pos h]
  · unfold boolConvert; rw [if_neg h1, if_neg h2]

theorem C7_boolConverter_witness :
    boolConvert "FALSE" = .ok false ∧
    boolConvert "invalid" = .error (.invalidBooleanValue
      "expected \x27true\x27 or \x27false\x27, got \x27invalid\x27") ∧
    (∃ b, boolConvert "True" = .ok b) :=
  ⟨C7_boolConverter_case_insensitive.2.2.1 "FALSE" (by decide),
   C7_boolConverter_case_insensitive.2.2.2.2 "invalid" (by decide) (by decide),
   (C7_boolConverter_case_insensitive.1 "True").2 (Or.inl (by decide))⟩

/-! ## C2: the argument name resolved by `Fill` for an option-bearing tag -/

/-- C2 (refuting evaluation): for the tag
`flag-name required=true type=string aliases=f,fn`, `ParseTag` extracts the
override `flag-name` (which sanitizes to `flag_name`), yet the `Fill` name
resolution assigns the *whole tag* (`argName = tag`), so the sanitized
resolved name embeds all the `key=value` options — it is
`flag_name_required_true_type_string_aliases_f_fn`, not `flag_name`. -/
theorem C2_fill_tag_override_bug :
    (ParseTag "flag-name required=true type=string aliases=f,fn").1 = "flag-name" ∧
    SanitizeArgName "flag-name" '_' = "flag_name" ∧
    fillResolveName (some "flag-name required=true type=string aliases=f,fn") "CustomFlag" ""
      = .name "flag_name_required_true_type_string_aliases_f_fn" ∧
    fillResolveName (some "flag-name required=true type=string aliases=f,fn") "CustomFlag" ""
      ≠ .name "flag_name" := by
  refine ⟨by decide, by decide, by decide, by decide⟩

/-! ## Supporting lemmas for the type-grammar claim (C3) -/

theorem decFoldVal (cs : List Char) (a : Nat) :
    cs.foldl (fun a c => 10 * a + digitVal c) a =
      a * 10 ^ cs.length + Nat.ofDigits 10 ((cs.map digitVal).reverse) := by
  induction cs generalizing a with
  | nil => simp [Nat.ofDigits]
  | cons c rest ih =>
    rw [List.foldl_cons, ih]
    simp only [List.map_cons, List.reverse_cons, Nat.ofDigits_append, List.length_cons,
      List.length_reverse, List.length_map, Nat.ofDigits_cons, Nat.ofDigits_nil]
    ring

theorem decDigitsVal_eq_ofDigits (cs : List Char) :
    decDigitsVal cs = Nat.ofDigits 10 ((cs.map digitVal).reverse) := by
  have h := decFoldVal cs 0
  simpa [decDigitsVal] using h

theorem goAtoiChars_digits (ds : List Char) (hne : ds ≠ [])
    (hd : ∀ c ∈ ds, goIsDigit c = true) (hle : decDigitsVal ds ≤ int64Max) :
    goAtoiChars ds = some ((decDigitsVal ds : Nat) : Int) := by
  cases ds with
  | nil => exact absurd rfl hne
  | cons c rest =>
    have hc : goIsDigit c = true := hd c (by simp)
    have hcm : ¬(c = '-') := by intro h; subst h; exact absurd hc (by decide)
    have hcp : ¬(c = '+') := by intro h; subst h; exact absurd hc (by decide)
    have hall : (c :: rest).all goIsDigit = true := by
      rw [List.all_eq_true]; intro x hx; exact hd x hx
    simp only [goAtoiChars, if_neg hcm, if_neg hcp, parseDigits, List.isEmpty_cons,
      Bool.false_eq_true, if_false, hall, if_true, hle]

theorem digits_ne_slash (ds : List Char) (hd : ∀ c ∈ ds, goIsDigit c = true) :
    ∀ c ∈ ds, c ≠ '/' := by
  intro c hc he
  subst he
  exact absurd (hd _ hc) (by decide)

theorem goSplit_base_digits (b : String) (ds : List Char)
    (hb : ∀ c ∈ b.data, c ≠ '/') (hd : ∀ c ∈ ds, goIsDigit c = true) :
    goSplit (b ++ "/" ++ (⟨ds⟩ : String)) '/' = [b, (⟨ds⟩ : String)] := by
  unfold goSplit
  have hdata : (b ++ "/" ++ (⟨ds⟩ : String)).data = b.data ++ '/' :: ds := by
    simp [String.data_append]
  rw [hdata, splitChar_append '/' b.data ds hb,
    splitChar_of_not_mem '/' ds (digits_ne_slash ds hd)]
  rfl

/-- C3: the type-descriptor parser recovers `(base, size, slice-shape)`
exactly on every `base/size` descriptor whose size is a non-negative decimal
numeral (within the range of Go's `int`); and it fails with
`InvalidTypeStringError` on every descriptor with more than two `/`-separated
segments after the base, and on every descriptor whose second or third
segment is not an integer. -/
theorem C3_typeGrammar :
    (∀ (b : String) (ds : List Char), (∀ c ∈ b.data, c ≠ '/') → ds ≠ [] →
      (∀ c ∈ ds, goIsDigit c = true) →
      Nat.ofDigits 10 ((ds.map digitVal).reverse) ≤ int64Max →
      parseTypeInfo (b ++ "/" ++ (⟨ds⟩ : String)) =
        .ok { rawType := b ++ "/" ++ (⟨ds⟩ : String), baseType := b,
              sliceSize := (Nat.ofDigits 10 ((ds.map digitVal).reverse) : Int),
              isSlice := true, isGroup := false }) ∧
    (∀ s : String, 3 < (goSplit s '/').length →
      parseTypeInfo s = .error (.invalidTypeString s)) ∧
    (∀ (s b x : String), goSplit s '/' = [b, x] → goAtoi x = none →
      parseTypeInfo s = .error (.invalidTypeString s)) ∧
    (∀ (s b x y : String), goSplit s '/' = [b, x, y] →
      goAtoi x = none ∨ goAtoi y = none →
      parseTypeInfo s = .error (.invalidTypeString s)) := by
  refine ⟨fun b ds hb hne hd hle => ?_, fun s h => ?_, fun s b x hs hx => ?_,
    fun s b x y hs hxy => ?_⟩
  · have hle2 : decDigitsVal ds ≤ int64Max := by
      rw [decDigitsVal_eq_ofDigits]; exact hle
    have hatoi : goAtoi (⟨ds⟩ : String) = some ((decDigitsVal ds : Nat) : Int) :=
      goAtoiChars_digits ds hne hd hle2
    simp only [parseTypeInfo, goSplit_base_digits b ds hb hd]
    norm_num
    rw [hatoi]
    simp only [decDigitsVal_eq_ofDigits]
    norm_cast
  · simp only [parseTypeInfo]
    rw [if_pos h]
  · simp only [parseTypeInfo, hs]
    simp only [goAtoi] at hx
    simp [goAtoi, hx]
  · rcases hxy with hx | hy
    · simp only [parseTypeInfo, hs]
      simp only [goAtoi] at hx
      simp [goAtoi, hx]
    · simp only [parseTypeInfo, hs]
      simp only [goAtoi] at hy
      cases hx : goAtoiChars x.data with
      | none => simp [goAtoi, hx]
      | some n => simp [goAtoi, hx, hy]

theorem C3_typeGrammar_witness :
    parseTypeInfo ("str" ++ "/" ++ (⟨['3']⟩ : String)) =
      .ok { rawType := "str" ++ "/" ++ (⟨['3']⟩ : String), baseType := "str",
            sliceSize := (Nat.ofDigits 10 (([ '3' ].map digitVal).reverse) : Int),
            isSlice := true, isGroup := false } ∧
    parseTypeInfo "str/1/2/3/4" = .error (.invalidTypeString "str/1/2/3/4") ∧
    parseTypeInfo "str/x" = .error (.invalidTypeString "str/x") ∧
    parseTypeInfo "str/2/y" = .error (.invalidTypeString "str/2/y") :=
  ⟨C3_typeGrammar.1 "str" ['3'] (by decide) (by decide) (by decide) (by decide),
   C3_typeGrammar.2.1 "str/1/2/3/4" (by decide),
   C3_typeGrammar.2.2.1 "str/x" "str" "x" (by decide) (by decide),
   C3_typeGrammar.2.2.2 "str/2/y" "str" "2" "y" (by decide) (Or.inr (by decide))⟩

/-! ## Supporting lemmas for the tag-tokenizer claim (C8) -/

theorem splitStep_protected (sep : Char) (rq rp : Bool) (q : List Char) :
    ∀ (parts : List String) (cur : List Char) (iq : Bool) (n : Int),
      (iq = true ∨ 0 < n) →
      (∀ c ∈ q, c ≠ '"' ∧ c ≠ '\\' ∧ c ≠ '(' ∧ c ≠ ')') →
      List.foldl (splitStep sep rq rp) ⟨parts, cur, iq, n, false⟩ q =
        ⟨parts, cur ++ q, iq, n, false⟩ := by
  induction q with
  | nil => intro parts cur iq n _ _; simp
  | cons c q ih =>
    intro parts cur iq n hprot hq
    obtain ⟨hq1, hq2, hq3, hq4⟩ := hq c (by simp)
    rw [List.foldl_cons]
    have hstep : splitStep sep rq rp ⟨parts, cur, iq, n, false⟩ c =
        ⟨parts, cur ++ [c], iq, n, false⟩ := by
      rcases hprot with hiq | hn
      · subst hiq
        by_cases hsep : c = sep
        · simp [splitStep, hsep]
        · simp [splitStep, hsep, hq1, hq2, hq3, hq4]
      · by_cases hsep : c = sep
        · simp [splitStep, hsep, hn]
        · simp [splitStep, hsep, hq1, hq2, hq3, hq4]
    rw [hstep, ih parts (cur ++ [c]) iq n hprot (fun x hx => hq x (by simp [hx]))]
    simp

theorem specialSplit_quote_atomic (sep : Char) (rp : Bool) (st : SplitSt) (q : List Char)
    (hiq : st.inQuote = false) (hesc : st.escaped = false) (hsep : sep ≠ '"')
    (hq : ∀ c ∈ q, c ≠ '"' ∧ c ≠ '\\' ∧ c ≠ '(' ∧ c ≠ ')') :
    List.foldl (splitStep sep true rp) st ('"' :: (q ++ ['"'])) =
      { st with current := st.current ++ '"' :: (q ++ ['"']) } := by
  obtain ⟨parts, cur, iq, n, esc⟩ := st
  dsimp only at hiq hesc
  subst hiq; subst hesc
  rw [List.foldl_cons]
  have hne : ¬('"' = sep) := fun h => hsep h.symm
  have h1 : splitStep sep true rp ⟨parts, cur, false, n, false⟩ '"' =
      ⟨parts, cur ++ ['"'], true, n, false⟩ := by
    simp [splitStep, hne]
  rw [h1, List.foldl_append,
    splitStep_protected sep true rp q parts (cur ++ ['"']) true n (Or.inl rfl) hq]
  have h2 : splitStep sep true rp ⟨parts, cur ++ ['"'] ++ q, true, n, false⟩ '"' =
      ⟨parts, cur ++ ['"'] ++ q ++ ['"'], false, n, false⟩ := by
    simp [splitStep, hne]
  rw [List.foldl_cons, h2, List.foldl_nil]
  simp

theorem specialSplit_paren_atomic (sep : Char) (rq : Bool) (st : SplitSt) (q : List Char)
    (hiq : st.inQuote = false) (hesc : st.escaped = false) (hn : 0 ≤ st.inParens)
    (hsep1 : sep ≠ '(') (hsep2 : sep ≠ ')')
    (hq : ∀ c ∈ q, c ≠ '"' ∧ c ≠ '\\' ∧ c ≠ '(' ∧ c ≠ ')') :
    List.foldl (splitStep sep rq true) st ('(' :: (q ++ [')'])) =
      { st with current := st.current ++ '(' :: (q ++ [')']) } := by
  obtain ⟨parts, cur, iq, n, esc⟩ := st
  dsimp only at hiq hesc hn
  subst hiq; subst hesc
  rw [List.foldl_cons]
  have hne1 : ¬('(' = sep) := fun h => hsep1 h.symm
  have hne2 : ¬(')' = sep) := fun h => hsep2 h.symm
  have h1 : splitStep sep rq true ⟨parts, cur, false, n, false⟩ '(' =
      ⟨parts, cur ++ ['('], false, n + 1, false⟩ := by
    simp [splitStep, hne1]
  rw [h1, List.foldl_append,
    splitStep_protected sep rq true q parts (cur ++ ['(']) false (n + 1)
      (Or.inr (by omega)) hq]
  have h2 : splitStep sep rq true ⟨parts, cur ++ ['('] ++ q, false, n + 1, false⟩ ')' =
      ⟨parts, cur ++ ['('] ++ q ++ [')'], false, n + 1 - 1, false⟩ := by
    simp [splitStep, hne1, hne2]
  rw [List.foldl_cons, h2, List.foldl_nil]
  simp

/-- C8: `ParseTag` parses the two specification examples to exactly the
stated name and options, and the tokenizer is atomic on double-quoted
substrings and parenthesized groups: folding the scan over `"…"` or `(…)`
(whose inside contains no quote, backslash or parenthesis, but may well
contain the separator) only ever extends the current token — it never closes
a part. -/
theorem C8_ParseTag_and_tokenizer :
    ((ParseTag "flag-name required=true type=string aliases=f,fn").1 = "flag-name" ∧
     (ParseTag "flag-name required=true type=string aliases=f,fn").2.lookup "required" =
       some (.bool true) ∧
     (ParseTag "flag-name required=true type=string aliases=f,fn").2.lookup "type" =
       some (.str "string") ∧
     (ParseTag "flag-name required=true type=string aliases=f,fn").2.lookup "aliases" =
       some (.strList ["f", "fn"]) ∧
     (ParseTag "flag-name required=true type=string aliases=f,fn").2.length = 3) ∧
    ((ParseTag "color type=enum(red,green,blue)").1 = "color" ∧
     (ParseTag "color type=enum(red,green,blue)").2.lookup "type" = some (.str "enum") ∧
     (ParseTag "color type=enum(red,green,blue)").2.lookup "values" =
       some (.strList ["red", "green", "blue"]) ∧
     (ParseTag "color type=enum(red,green,blue)").2.length = 2) ∧
    (∀ (sep : Char) (rp : Bool) (st : SplitSt) (q : List Char),
      st.inQuote = false → st.escaped = false → sep ≠ '"' →
      (∀ c ∈ q, c ≠ '"' ∧ c ≠ '\\' ∧ c ≠ '(' ∧ c ≠ ')') →
      List.foldl (splitStep sep true rp) st ('"' :: (q ++ ['"'])) =
        { st with current := st.current ++ '"' :: (q ++ ['"']) }) ∧
    (∀ (sep : Char) (rq : Bool) (st : SplitSt) (q : List Char),
      st.inQuote = false → st.escaped = false → 0 ≤ st.inParens → sep ≠ '(' → sep ≠ ')' →
      (∀ c ∈ q, c ≠ '"' ∧ c ≠ '\\' ∧ c ≠ '(' ∧ c ≠ ')') →
      List.foldl (splitStep sep rq true) st ('(' :: (q ++ [')'])) =
        { st with current := st.current ++ '(' :: (q ++ [')']) }) := by
  refine ⟨⟨by decide, by decide, by decide, by decide, by decide⟩,
    ⟨by decide, by decide, by decide, by decide⟩,
    fun sep rp st q h1 h2 h3 h4 => specialSplit_quote_atomic sep rp st q h1 h2 h3 h4,
    fun sep rq st q h1 h2 h3 h4 h5 h6 =>
      specialSplit_paren_atomic sep rq st q h1 h2 h3 h4 h5 h6⟩

theorem C8_ParseTag_witness :
    List.foldl (splitStep ' ' true true) splitInit ('"' :: ("b c".data ++ ['"'])) =
      { splitInit with current := splitInit.current ++ '"' :: ("b c".data ++ ['"']) } ∧
    List.foldl (splitStep ' ' true true) splitInit ('(' :: ("a,b c".data ++ [')'])) =
      { splitInit with current := splitInit.current ++ '(' :: ("a,b c".data ++ [')']) } :=
  ⟨C8_ParseTag_and_tokenizer.2.2.1 ' ' true splitInit "b c".data rfl rfl (by decide)
      (by decide),
   C8_ParseTag_and_tokenizer.2.2.2 ' ' true splitInit "a,b c".data rfl rfl (by decide)
      (by decide) (by decide) (by decide)⟩

/-! ## Supporting lemmas for the `Except` monad and `mapM` loops -/

@[simp] theorem ok_bind {α β : Type} (x : α) (k : α → Except GoErr β) :
    (Except.ok x >>= k) = k x := rfl

@[simp] theorem error_bind {α β : Type} (e : GoErr) (k : α → Except GoErr β) :
    ((Except.error e : Except GoErr α) >>= k) = .error e := rfl

@[simp] theorem pure_eq_ok {α : Type} (x : α) : (pure x : Except GoErr α) = .ok x := rfl

theorem mapM_ok_of_ok {α β : Type} (f : α → Except GoErr β) (g : α → β) :
    ∀ l : List α, (∀ a ∈ l, f a = .ok (g a)) → l.mapM f = .ok (l.map g) := by
  intro l
  induction l with
  | nil => intro _; rfl
  | cons a l ih =>
    intro h
    rw [List.mapM_cons, h a (by simp)]
    simp only [ok_bind]
    rw [ih (fun x hx => h x (by simp [hx]))]
    simp

theorem mapM_isOk {α β : Type} (f : α → Except GoErr β) :
    ∀ l : List α, (∀ a ∈ l, ∃ b, f a = .ok b) → ∃ bs, l.mapM f = .ok bs := by
  intro l
  induction l with
  | nil => intro _; exact ⟨[], rfl⟩
  | cons a l ih =>
    intro h
    obtain ⟨b, hb⟩ := h a (by simp)
    obtain ⟨bs, hbs⟩ := ih (fun x hx => h x (by simp [hx]))
    refine ⟨b :: bs, ?_⟩
    rw [List.mapM_cons, hb]
    simp only [ok_bind]
    rw [hbs]
    simp

theorem mapM_range_error {β : Type} (f : Nat → Except GoErr β) (n i : Nat) (e : GoErr)
    (hi : i < n) (hok : ∀ j, j < i → ∃ b, f j = .ok b) (herr : f i = .error e) :
    (List.range n).mapM f = .error e := by
  have hn : n = i + (n - i) := by omega
  rw [hn, List.range_add, List.mapM_append]
  obtain ⟨bs, hbs⟩ := mapM_isOk f (List.range i) fun a ha => hok a (List.mem_range.mp ha)
  rw [hbs]
  simp only [ok_bind]
  have h2 : n - i = (n - i - 1) + 1 := by omega
  rw [h2, List.range_succ_eq_map, List.map_cons]
  simp only [Nat.add_zero]
  rw [List.mapM_cons, herr]
  simp only [error_bind]

/-! ## C5: ParseArgs failure semantics -/

/-- C5: `ParseArgs` fails outright (nil `Args`, `ArgListMissingError`) when
`OMNI_ARG_LIST` is absent; an explicitly empty list yields an `Args` with
zero declared entries; and whenever an error is returned, the `Args` result
is nil — no partially populated store is ever returned. -/
theorem C5_ParseArgs_failure_semantics :
    (∀ env : Env, lookupEnv env "OMNI_ARG_LIST" = none →
      ParseArgs env = (none, some .argListMissing)) ∧
    (∀ env : Env, lookupEnv env "OMNI_ARG_LIST" = some "" →
      ∃ a, ParseArgs env = (some a, none) ∧ a.declaredArgs = []) ∧
    (∀ (env : Env) (e : GoErr), (ParseArgs env).2 = some e → (ParseArgs env).1 = none) := by
  refine ⟨fun env h => ?_, fun env h => ?_, fun env e h => ?_⟩
  · unfold ParseArgs ParseArgsE getArgList
    rw [h]
  · refine ⟨NewArgs, ?_, rfl⟩
    unfold ParseArgs ParseArgsE getArgList
    rw [h]
    rfl
  · unfold ParseArgs at h ⊢
    cases hE : ParseArgsE env with
    | ok a =>
      rw [hE] at h
      simp at h
    | error e2 => rfl

theorem C5_ParseArgs_witness :
    ParseArgs [] = (none, some .argListMissing) ∧
    (∃ a, ParseArgs [("OMNI_ARG_LIST", "")] = (some a, none) ∧ a.declaredArgs = []) ∧
    (ParseArgs [("OMNI_ARG_LIST", "x")]).1 = none :=
  ⟨C5_ParseArgs_failure_semantics.1 [] rfl,
   C5_ParseArgs_failure_semantics.2.1 [("OMNI_ARG_LIST", "")] rfl,
   C5_ParseArgs_failure_semantics.2.2 [("OMNI_ARG_LIST", "x")]
     (.argTypeMissing "x" none) (by decide)⟩

/-! ## C4: group decoding -/

theorem getArgValue_str (env : Env) (name : String) (idx gidx : Option Nat) :
    getArgValue env name idx gidx strConvert =
      .ok (lookupEnv env (valueKey name idx gidx)) := by
  unfold getArgValue
  cases lookupEnv env (valueKey name idx gidx) <;> rfl

theorem decodeGroupIndex_missing {T : Type} (env : Env) (name : String) (i : Nat)
    (conv : String → Except GoErr T)
    (h : lookupEnv env (typeKey name (some i)) = none) :
    decodeGroupIndex env name conv i = .error (.argTypeMissing name (some i)) := by
  unfold decodeGroupIndex getArgType
  rw [h]

/-- Environment of the specification's worked group example: outer size 2,
per-index sub-descriptors of sizes 2 and 3, all slots set. -/
def envC4 : Env :=
  [("OMNI_ARG_LIST", "grp"),
   ("OMNI_ARG_GRP_TYPE", "str/2/2"),
   ("OMNI_ARG_GRP_TYPE_0", "str/2"),
   ("OMNI_ARG_GRP_VALUE_0_0", "a1"),
   ("OMNI_ARG_GRP_VALUE_0_1", "a2"),
   ("OMNI_ARG_GRP_TYPE_1", "str/3"),
   ("OMNI_ARG_GRP_VALUE_1_0", "b1"),
   ("OMNI_ARG_GRP_VALUE_1_1", "b2"),
   ("OMNI_ARG_GRP_VALUE_1_2", "b3")]

/-- C4: decoding the specification's group example yields
`[[a1,a2],[b1,b2,b3]]`; for every group argument, a missing per-outer-index
type descriptor key is a hard `ArgTypeMissingError` naming the argument and
the index of the missing key; and, per outer index, the decoded inner slots
are exactly the looked-up value keys — an absent value key yields the unset
(`none`) slot rather than an error. -/
theorem C4_group_decode :
    ((ParseArgs envC4).1.map fun a => GetStringGroups a "grp") =
      some (some [["a1", "a2"], ["b1", "b2", "b3"]], true) ∧
    (∀ {T : Type} (env : Env) (name : String) (size : Int)
        (conv : String → Except GoErr T) (i : Nat), i < size.toNat →
      lookupEnv env (typeKey name (some i)) = none →
      (∀ j, j < i → ∃ v, decodeGroupIndex env name conv j = .ok v) →
      handleGroupValue env name size conv = .error (.argTypeMissing name (some i))) ∧
    (∀ (env : Env) (name : String) (i : Nat) (ti : TypeInfo),
      getArgType env name (some i) = .ok ti →
      decodeGroupIndex env name strConvert i =
        .ok ((List.range ti.sliceSize.toNat).map fun j =>
          lookupEnv env (valueKey name (some i) (some j)))) := by
  refine ⟨by decide, fun env name size conv i hi hmiss hok => ?_,
    fun env name i ti h => ?_⟩
  · unfold handleGroupValue
    rw [mapM_range_error (decodeGroupIndex env name conv) size.toNat i _ hi hok
      (decodeGroupIndex_missing env name i conv hmiss)]
  · unfold decodeGroupIndex
    rw [h]
    exact mapM_ok_of_ok _ _ _ fun j _ => getArgValue_str env name (some i) (some j)

theorem C4_group_decode_witness :
    handleGroupValue ([] : Env) "g" 1 strConvert =
      .error (.argTypeMissing "g" (some 0)) ∧
    decodeGroupIndex [("OMNI_ARG_G_TYPE_0", "str/2")] "g" strConvert 0 =
      .ok ((List.range (2 : Int).toNat).map fun j =>
        lookupEnv [("OMNI_ARG_G_TYPE_0", "str/2")] (valueKey "g" (some 0) (some j))) :=
  ⟨C4_group_decode.2.1 [] "g" 1 strConvert 0 (by decide) (by decide)
      (fun j hj => absurd hj (by omega)),
   C4_group_decode.2.2 [("OMNI_ARG_G_TYPE_0", "str/2")] "g" 0
     { rawType := "str/2", baseType := "str", sliceSize := 2, isSlice := true,
       isGroup := false } (by decide)⟩

/-! ## C10: Fill mutates the target before failing -/

/-- Environment for the non-atomicity scenario: one declared string argument
`alpha` with value `x`. -/
def envC10 : Env :=
  [("OMNI_ARG_LIST", "alpha"), ("OMNI_ARG_ALPHA_TYPE", "str"),
   ("OMNI_ARG_ALPHA_VALUE", "x")]

/-- Two-field target for the non-atomicity scenario; field `Beta` references
an argument that was never declared. -/
def targetC10 : List MField :=
  [{ fieldName := "Alpha", tag := none, ty := .str, value := .str "" },
   { fieldName := "Beta", tag := none, ty := .str, value := .str "" }]

/-- C10: `Fill` is not atomic: on this store and two-field target, the fill
fails on the second field (`beta` is not declared) *after* having already
overwritten the first field with the decoded value `x`; the returned target
keeps the mutation. -/
theorem C10_fill_not_atomic :
    ((ParseArgs envC10).1.map fun a => fillStruct a "" targetC10) =
      some
        ([{ fieldName := "Alpha", tag := none, ty := .str, value := .str "x" },
          { fieldName := "Beta", tag := none, ty := .str, value := .str "" }],
         some (.errorf "field \"Beta\": parameter \"beta\" not found")) ∧
    (targetC10.headD { fieldName := "", tag := none, ty := .str, value := .str "" }).value
      = .str "" := by
  refine ⟨by decide, by decide⟩

/-! ## Association-list (Go map) lemmas -/

theorem lookup_filter_ne {α : Type} (k k' : String) (h : k' ≠ k) :
    ∀ m : List (String × α), (m.filter fun p => !(p.1 == k)).lookup k' = m.lookup k' := by
  intro m
  induction m with
  | nil => rfl
  | cons p m ih =>
    obtain ⟨a, b⟩ := p
    by_cases hp : a = k
    · subst hp
      have hk : (k' == a) = false := by simp [h]
      simp only [List.filter_cons, beq_self_eq_true, Bool.not_true, Bool.false_eq_true,
        if_false, ih,
        List.lookup_cons, hk]
    · have hkeep : (!(a == k)) = true := by simp [hp]
      simp only [List.filter_cons, hkeep, if_true, List.lookup_cons]
      cases hka : (k' == a) with
      | true => rfl
      | false => exact ih

theorem lookup_mapInsert_self {α : Type} (k : String) (v : α) (m : List (String × α)) :
    (mapInsert k v m).lookup k = some v := by
  simp [mapInsert, List.lookup_cons]

theorem lookup_mapInsert_ne {α : Type} (k k' : String) (v : α) (m : List (String × α))
    (h : k' ≠ k) : (mapInsert k v m).lookup k' = m.lookup k' := by
  have hk : (k' == k) = false := by simp [h]
  simp only [mapInsert, List.lookup_cons, hk]
  exact lookup_filter_ne k k' h m

theorem lookup_mapInsert_isSome {α : Type} (k k' : String) (v : α) (m : List (String × α))
    (h : (m.lookup k').isSome = true) : ((mapInsert k v m).lookup k').isSome = true := by
  by_cases hk : k' = k
  · subst hk; simp [lookup_mapInsert_self]
  · rw [lookup_mapInsert_ne k k' v m hk]; exact h

theorem lookup_mem {α : Type} (k : String) (v : α) :
    ∀ m : List (String × α), m.lookup k = some v → (k, v) ∈ m := by
  intro m
  induction m with
  | nil => intro h; cases h
  | cons p m ih =>
    obtain ⟨a, b⟩ := p
    intro h
    rw [List.lookup_cons] at h
    cases hka : (k == a) with
    | true =>
      rw [hka] at h
      have hk : k = a := by simpa using hka
      have hv : b = v := by simpa using h
      subst hk; subst hv
      exact List.mem_cons_self _ _
    | false =>
      rw [hka] at h
      exact List.mem_cons_of_mem _ (ih h)

theorem keys_filter_ne {α : Type} (k : String) :
    ∀ m : List (String × α),
      (m.filter fun p => !(p.1 == k)).map Prod.fst =
        (m.map Prod.fst).filter fun a => !(a == k) := by
  intro m
  induction m with
  | nil => rfl
  | cons p m ih =>
    obtain ⟨a, b⟩ := p
    by_cases hp : a = k
    · subst hp
      simp only [List.filter_cons, beq_self_eq_true, Bool.not_true, Bool.false_eq_true,
        if_false, ih,
        List.map_cons]
    · have hkeep : (!(a == k)) = true := by simp [hp]
      simp only [List.filter_cons, hkeep, if_true, List.map_cons, ih]

theorem mapInsert_keys_nodup {α : Type} (k : String) (v : α) (m : List (String × α))
    (h : (m.map Prod.fst).Nodup) : ((mapInsert k v m).map Prod.fst).Nodup := by
  simp only [mapInsert, List.map_cons, List.nodup_cons, keys_filter_ne]
  constructor
  · intro hmem
    rw [List.mem_filter] at hmem
    simp at hmem
  · exact List.Nodup.filter _ h

theorem mapInsert_mem {α : Type} (k : String) (v : α) (m : List (String × α)) (p : String × α)
    (h : p ∈ mapInsert k v m) : p = (k, v) ∨ p ∈ m := by
  simp only [mapInsert, List.mem_cons] at h
  rcases h with h | h
  · exact Or.inl h
  · exact Or.inr (List.mem_of_mem_filter h)

/-! ## Invariants of a successful decode pass

These relate the store maps of a `ParseArgs`-produced `Args` to the
environment: every declared key is stored lower-cased and without duplicates,
and every scalar-shaped declared argument has a slot in the typed map of its
base kind holding exactly the `handleSingleValue` decode result. -/

/-- The slot of `name` in one typed scalar map: present, and equal to the
single-value decode result for `name`. -/
def scalarSlotInv {T : Type} (env : Env) (conv : String → Except GoErr T)
    (store : List (String × Option T)) (name : String) : Prop :=
  ∃ v, store.lookup name = some v ∧ handleSingleValue env name conv = .ok v

/-- Dispatch of `scalarSlotInv` on the declared base kind, mirroring the
`ParseArgs` switch (unknown kinds fall back to the string map). -/
def scalarInvFor (env : Env)
    (bl : List (String × Option Bool)) (il : List (String × Option Int))
    (fl : List (String × Option FloatVal)) (sl : List (String × Option String))
    (name : String) (ti : TypeInfo) : Prop :=
  if ti.baseType = "bool" then scalarSlotInv env boolConvert bl name
  else if ti.baseType = "int" then scalarSlotInv env intConvert il name
  else if ti.baseType = "float" then scalarSlotInv env floatConvert fl name
  else scalarSlotInv env strConvert sl name

/-- Invariant established by the decode loop. -/
def ParseInv (env : Env) (a : Args) : Prop :=
  (a.declaredArgs.map Prod.fst).Nodup ∧
  (∀ p ∈ a.declaredArgs, strToLower p.1 = p.1) ∧
  (∀ name ti, a.declaredArgs.lookup name = some ti →
    ti.isGroup = false → ti.isSlice = false →
    scalarInvFor env a.bools a.ints a.floats a.strings name ti)

theorem scalarSlotInv_pres {T : Type} (env : Env) (conv : String → Except GoErr T)
    (st : List (String × Option T)) (name n : String) (hne : name ≠ n)
    (st' : List (String × Option T))
    (hst : st' = st ∨ ∃ w, st' = mapInsert n w st)
    (h : scalarSlotInv env conv st name) : scalarSlotInv env conv st' name := by
  obtain ⟨v, h1, h2⟩ := h
  rcases hst with rfl | ⟨w, rfl⟩
  · exact ⟨v, h1, h2⟩
  · exact ⟨v, by rw [lookup_mapInsert_ne n name w st hne]; exact h1, h2⟩

theorem scalarInvFor_mono (env : Env)
    (bl : List (String × Option Bool)) (il : List (String × Option Int))
    (fl : List (String × Option FloatVal)) (sl : List (String × Option String))
    (name n : String) (ti : TypeInfo) (hne : name ≠ n)
    (bl' : List (String × Option Bool)) (il' : List (String × Option Int))
    (fl' : List (String × Option FloatVal)) (sl' : List (String × Option String))
    (hb : bl' = bl ∨ ∃ w, bl' = mapInsert n w bl)
    (hi : il' = il ∨ ∃ w, il' = mapInsert n w il)
    (hf : fl' = fl ∨ ∃ w, fl' = mapInsert n w fl)
    (hs : sl' = sl ∨ ∃ w, sl' = mapInsert n w sl)
    (hIn : scalarInvFor env bl il fl sl name ti) :
    scalarInvFor env bl' il' fl' sl' name ti := by
  unfold scalarInvFor at hIn ⊢
  by_cases h1 : ti.baseType = "bool"
  · rw [if_pos h1] at hIn ⊢
    exact scalarSlotInv_pres env boolConvert bl name n hne bl' hb hIn
  · rw [if_neg h1] at hIn ⊢
    by_cases h2 : ti.baseType = "int"
    · rw [if_pos h2] at hIn ⊢
      exact scalarSlotInv_pres env intConvert il name n hne il' hi hIn
    · rw [if_neg h2] at hIn ⊢
      by_cases h3 : ti.baseType = "float"
      · rw [if_pos h3] at hIn ⊢
        exact scalarSlotInv_pres env floatConvert fl name n hne fl' hf hIn
      · rw [if_neg h3] at hIn ⊢
        exact scalarSlotInv_pres env strConvert sl name n hne sl' hs hIn

theorem ParseInv_decl_step (env : Env) (a a' : Args) (n : String) (ti : TypeInfo)
    (hlow : strToLower n = n)
    (hdecl : a'.declaredArgs = mapInsert n ti a.declaredArgs)
    (hP : ParseInv env a) :
    (a'.declaredArgs.map Prod.fst).Nodup ∧ ∀ p ∈ a'.declaredArgs, strToLower p.1 = p.1 := by
  rw [hdecl]
  refine ⟨mapInsert_keys_nodup n ti _ hP.1, fun p hp => ?_⟩
  rcases mapInsert_mem n ti _ p hp with rfl | hp2
  · exact hlow
  · exact hP.2.1 p hp2

theorem ParseInv_nonscalar (env : Env) (a a' : Args) (n : String) (ti : TypeInfo)
    (hlow : strToLower n = n)
    (hdecl : a'.declaredArgs = mapInsert n ti a.declaredArgs)
    (hshape : ti.isGroup = true ∨ ti.isSlice = true)
    (hbools : a'.bools = a.bools) (hints : a'.ints = a.ints)
    (hfloats : a'.floats = a.floats) (hstrs : a'.strings = a.strings)
    (hP : ParseInv env a) : ParseInv env a' := by
  obtain ⟨hnd, hlw⟩ := ParseInv_decl_step env a a' n ti hlow hdecl hP
  refine ⟨hnd, hlw, fun name ti' hlook hg hs => ?_⟩
  rw [hdecl] at hlook
  by_cases hne : name = n
  · subst hne
    rw [lookup_mapInsert_self] at hlook
    injection hlook with hti
    subst hti
    rcases hshape with hsh | hsh
    · rw [hsh] at hg; cases hg
    · rw [hsh] at hs; cases hs
  · rw [lookup_mapInsert_ne n name ti _ hne] at hlook
    have hold := hP.2.2 name ti' hlook hg hs
    rw [hbools, hints, hfloats, hstrs]
    exact hold

theorem ParseInv_scalar_bool (env : Env) (a a' : Args) (n : String) (ti : TypeInfo)
    (v : Option Bool) (hlow : strToLower n = n)
    (hdecl : a'.declaredArgs = mapInsert n ti a.declaredArgs)
    (hbase : ti.baseType = "bool")
    (hv : handleSingleValue env n boolConvert = .ok v)
    (hbools : a'.bools = mapInsert n v a.bools)
    (hints : a'.ints = a.ints) (hfloats : a'.floats = a.floats)
    (hstrs : a'.strings = a.strings)
    (hP : ParseInv env a) : ParseInv env a' := by
  obtain ⟨hnd, hlw⟩ := ParseInv_decl_step env a a' n ti hlow hdecl hP
  refine ⟨hnd, hlw, fun name ti' hlook hg hs => ?_⟩
  rw [hdecl] at hlook
  by_cases hne : name = n
  · subst hne
    rw [lookup_mapInsert_self] at hlook
    injection hlook with hti
    subst hti
    unfold scalarInvFor
    rw [if_pos hbase, hbools]
    exact ⟨v, lookup_mapInsert_self _ v a.bools, hv⟩
  · rw [lookup_mapInsert_ne n name ti _ hne] at hlook
    exact scalarInvFor_mono env a.bools a.ints a.floats a.strings name n ti' hne
      a'.bools a'.ints a'.floats a'.strings (Or.inr ⟨v, hbools⟩) (Or.inl hints)
      (Or.inl hfloats) (Or.inl hstrs) (hP.2.2 name ti' hlook hg hs)

theorem ParseInv_scalar_int (env : Env) (a a' : Args) (n : String) (ti : TypeInfo)
    (v : Option Int) (hlow : strToLower n = n)
    (hdecl : a'.declaredArgs = mapInsert n ti a.declaredArgs)
    (hbase : ti.baseType = "int")
    (hv : handleSingleValue env n intConvert = .ok v)
    (hints : a'.ints = mapInsert n v a.ints)
    (hbools : a'.bools = a.bools) (hfloats : a'.floats = a.floats)
    (hstrs : a'.strings = a.strings)
    (hP : ParseInv env a) : ParseInv env a' := by
  obtain ⟨hnd, hlw⟩ := ParseInv_decl_step env a a' n ti hlow hdecl hP
  refine ⟨hnd, hlw, fun name ti' hlook hg hs => ?_⟩
  rw [hdecl] at hlook
  by_cases hne : name = n
  · subst hne
    rw [lookup_mapInsert_self] at hlook
    injection hlook with hti
    subst hti
    unfold scalarInvFor
    rw [hbase]
    rw [if_neg (by decide), if_pos rfl, hints]
    exact ⟨v, lookup_mapInsert_self _ v a.ints, hv⟩
  · rw [lookup_mapInsert_ne n name ti _ hne] at hlook
    exact scalarInvFor_mono env a.bools a.ints a.floats a.strings name n ti' hne
      a'.bools a'.ints a'.floats a'.strings (Or.inl hbools) (Or.inr ⟨v, hints⟩)
      (Or.inl hfloats) (Or.inl hstrs) (hP.2.2 name ti' hlook hg hs)

theorem ParseInv_scalar_float (env : Env) (a a' : Args) (n : String) (ti : TypeInfo)
    (v : Option FloatVal) (hlow : strToLower n = n)
    (hdecl : a'.declaredArgs = mapInsert n ti a.declaredArgs)
    (hbase : ti.baseType = "float")
    (hv : handleSingleValue env n floatConvert = .ok v)
    (hfloats : a'.floats = mapInsert n v a.floats)
    (hbools : a'.bools = a.bools) (hints : a'.ints = a.ints)
    (hstrs : a'.strings = a.strings)
    (hP : ParseInv env a) : ParseInv env a' := by
  obtain ⟨hnd, hlw⟩ := ParseInv_decl_step env a a' n ti hlow hdecl hP
  refine ⟨hnd, hlw, fun name ti' hlook hg hs => ?_⟩
  rw [hdecl] at hlook
  by_cases hne : name = n
  · subst hne
    rw [lookup_mapInsert_self] at hlook
    injection hlook with hti
    subst hti
    unfold scalarInvFor
    rw [hbase]
    rw [if_neg (by decide), if_neg (by decide), if_pos rfl, hfloats]
    exact ⟨v, lookup_mapInsert_self _ v a.floats, hv⟩
  · rw [lookup_mapInsert_ne n name ti _ hne] at hlook
    exact scalarInvFor_mono env a.bools a.ints a.floats a.strings name n ti' hne
      a'.bools a'.ints a'.floats a'.strings (Or.inl hbools) (Or.inl hints)
      (Or.inr ⟨v, hfloats⟩) (Or.inl hstrs) (hP.2.2 name ti' hlook hg hs)

theorem ParseInv_scalar_str (env : Env) (a a' : Args) (n : String) (ti : TypeInfo)
    (v : Option String) (hlow : strToLower n = n)
    (hdecl : a'.declaredArgs = mapInsert n ti a.declaredArgs)
    (hb1 : ¬(ti.baseType = "bool")) (hb2 : ¬(ti.baseType = "int"))
    (hb3 : ¬(ti.baseType = "float"))
    (hv : handleSingleValue env n strConvert = .ok v)
    (hstrs : a'.strings = mapInsert n v a.strings)
    (hbools : a'.bools = a.bools) (hints : a'.ints = a.ints)
    (hfloats : a'.floats = a.floats)
    (hP : ParseInv env a) : ParseInv env a' := by
  obtain ⟨hnd, hlw⟩ := ParseInv_decl_step env a a' n ti hlow hdecl hP
  refine ⟨hnd, hlw, fun name ti' hlook hg hs => ?_⟩
  rw [hdecl] at hlook
  by_cases hne : name = n
  · subst hne
    rw [lookup_mapInsert_self] at hlook
    injection hlook with hti
    subst hti
    unfold scalarInvFor
    rw [if_neg hb1, if_neg hb2, if_neg hb3, hstrs]
    exact ⟨v, lookup_mapInsert_self _ v a.strings, hv⟩
  · rw [lookup_mapInsert_ne n name ti _ hne] at hlook
    exact scalarInvFor_mono env a.bools a.ints a.floats a.strings name n ti' hne
      a'.bools a'.ints a'.floats a'.strings (Or.inl hbools) (Or.inl hints)
      (Or.inl hfloats) (Or.inr ⟨v, hstrs⟩) (hP.2.2 name ti' hlook hg hs)

theorem decodeArg_inv (env : Env) (a a' : Args) (n : String)
    (hlow : strToLower n = n)
    (h : decodeArg env a n = .ok a') (hP : ParseInv env a) : ParseInv env a' := by
  unfold decodeArg at h
  cases hty : getArgType env n none with
  | error e => rw [hty] at h; cases h
  | ok ti =>
    rw [hty] at h
    dsimp only at h
    by_cases hb : ti.baseType = "bool"
    · rw [if_pos hb] at h
      by_cases hg : ti.isGroup = true
      · rw [if_pos hg] at h
        cases hv : handleGroupValue env n ti.sliceSize boolConvert with
        | error e => rw [hv] at h; cases h
        | ok v =>
          rw [hv] at h
          injection h with h2
          subst h2
          exact ParseInv_nonscalar env a _ n ti hlow rfl (Or.inl hg) rfl rfl rfl rfl hP
      · rw [if_neg hg] at h
        by_cases hsl : ti.isSlice = true
        · rw [if_pos hsl] at h
          cases hv : handleSliceValue env n ti.sliceSize boolConvert with
          | error e => rw [hv] at h; cases h
          | ok v =>
            rw [hv] at h
            injection h with h2
            subst h2
            exact ParseInv_nonscalar env a _ n ti hlow rfl (Or.inr hsl) rfl rfl rfl rfl hP
        · rw [if_neg hsl] at h
          cases hv : handleSingleValue env n boolConvert with
          | error e => rw [hv] at h; cases h
          | ok v =>
            rw [hv] at h
            injection h with h2
            subst h2
            exact ParseInv_scalar_bool env a _ n ti v hlow rfl hb hv rfl rfl rfl rfl hP
    · rw [if_neg hb] at h
      by_cases hi : ti.baseType = "int"
      · rw [if_pos hi] at h
        by_cases hg : ti.isGroup = true
        · rw [if_pos hg] at h
          cases hv : handleGroupValue env n ti.sliceSize intConvert with
          | error e => rw [hv] at h; cases h
          | ok v =>
            rw [hv] at h
            injection h with h2
            subst h2
            exact ParseInv_nonscalar env a _ n ti hlow rfl (Or.inl hg) rfl rfl rfl rfl hP
        · rw [if_neg hg] at h
          by_cases hsl : ti.isSlice = true
          · rw [if_pos hsl] at h
            cases hv : handleSliceValue env n ti.sliceSize intConvert with
            | error e => rw [hv] at h; cases h
            | ok v =>
              rw [hv] at h
              injection h with h2
              subst h2
              exact ParseInv_nonscalar env a _ n ti hlow rfl (Or.inr hsl) rfl rfl rfl rfl hP
          · rw [if_neg hsl] at h
            cases hv : handleSingleValue env n intConvert with
            | error e => rw [hv] at h; cases h
            | ok v =>
              rw [hv] at h
              injection h with h2
              subst h2
              exact ParseInv_scalar_int env a _ n ti v hlow rfl hi hv rfl rfl rfl rfl hP
      · rw [if_neg hi] at h
        by_cases hf : ti.baseType = "float"
        · rw [if_pos hf] at h
          by_cases hg : ti.isGroup = true
          · rw [if_pos hg] at h
            cases hv : handleGroupValue env n ti.sliceSize floatConvert with
            | error e => rw [hv] at h; cases h
            | ok v =>
              rw [hv] at h
              injection h with h2
              subst h2
              exact ParseInv_nonscalar env a _ n ti hlow rfl (Or.inl hg) rfl rfl rfl rfl hP
          · rw [if_neg hg] at h
            by_cases hsl : ti.isSlice = true
            · rw [if_pos hsl] at h
              cases hv : handleSliceValue env n ti.sliceSize floatConvert with
              | error e => rw [hv] at h; cases h
              | ok v =>
                rw [hv] at h
                injection h with h2
                subst h2
                exact ParseInv_nonscalar env a _ n ti hlow rfl (Or.inr hsl) rfl rfl rfl rfl hP
            · rw [if_neg hsl] at h
              cases hv : handleSingleValue env n floatConvert with
              | error e => rw [hv] at h; cases h
              | ok v =>
                rw [hv] at h
                injection h with h2
                subst h2
                exact ParseInv_scalar_float env a _ n ti v hlow rfl hf hv rfl rfl rfl rfl hP
        · rw [if_neg hf] at h
          by_cases hg : ti.isGroup = true
          · rw [if_pos hg] at h
            cases hv : handleGroupValue env n ti.sliceSize strConvert with
            | error e => rw [hv] at h; cases h
            | ok v =>
              rw [hv] at h
              injection h with h2
              subst h2
              exact ParseInv_nonscalar env a _ n ti hlow rfl (Or.inl hg) rfl rfl rfl rfl hP
          · rw [if_neg hg] at h
            by_cases hsl : ti.isSlice = true
            · rw [if_pos hsl] at h
              cases hv : handleSliceValue env n ti.sliceSize strConvert with
              | error e => rw [hv] at h; cases h
              | ok v =>
                rw [hv] at h
                injection h with h2
                subst h2
                exact ParseInv_nonscalar env a _ n ti hlow rfl (Or.inr hsl) rfl rfl rfl rfl hP
            · rw [if_neg hsl] at h
              cases hv : handleSingleValue env n strConvert with
              | error e => rw [hv] at h; cases h
              | ok v =>
                rw [hv] at h
                injection h with h2
                subst h2
                exact ParseInv_scalar_str env a _ n ti v hlow rfl hb hi hf hv rfl rfl rfl rfl hP

theorem foldl_decode_inv (env : Env) :
    ∀ (l : List String) (a0 b : Args), (∀ n ∈ l, strToLower n = n) → ParseInv env a0 →
      l.foldlM (decodeArg env) a0 = .ok b → ParseInv env b := by
  intro l
  induction l with
  | nil =>
    intro a0 b _ h0 hb
    rw [List.foldlM_nil] at hb
    simp only [pure_eq_ok] at hb
    injection hb with h2
    rw [← h2]
    exact h0
  | cons n l ih =>
    intro a0 b hlw h0 hb
    rw [List.foldlM_cons] at hb
    cases hd : decodeArg env a0 n with
    | error e =>
      rw [hd] at hb
      simp only [error_bind] at hb
      cases hb
    | ok a1 =>
      rw [hd] at hb
      simp only [ok_bind] at hb
      exact ih a1 b (fun x hx => hlw x (by simp [hx]))
        (decodeArg_inv env a0 a1 n (hlw n (by simp)) hd h0) hb

theorem ParseInv_NewArgs (env : Env) : ParseInv env NewArgs := by
  refine ⟨by simp [NewArgs], fun p hp => absurd hp (by simp [NewArgs]),
    fun name ti hlook _ _ => ?_⟩
  simp [NewArgs] at hlook

theorem ParseArgs_inv (env : Env) (a : Args) (h : (ParseArgs env).1 = some a) :
    ParseInv env a := by
  unfold ParseArgs at h
  cases hE : ParseArgsE env with
  | error e =>
    rw [hE] at h
    simp at h
  | ok a2 =>
    rw [hE] at h
    simp only [] at h
    injection h with h2
    subst h2
    unfold ParseArgsE at hE
    cases hL : getArgList env with
    | error e => rw [hL] at hE; cases hE
    | ok l =>
      rw [hL] at hE
      have hlw : ∀ n ∈ l, strToLower n = n := by
        unfold getArgList at hL
        cases hEnv : lookupEnv env "OMNI_ARG_LIST" with
        | none => rw [hEnv] at hL; cases hL
        | some s =>
          rw [hEnv] at hL
          injection hL with h3
          subst h3
          intro n hn
          rw [List.mem_map] at hn
          obtain ⟨x, _, rfl⟩ := hn
          exact strToLower_idem x
      exact foldl_decode_inv env l NewArgs _ hlw (ParseInv_NewArgs env) hE

/-! ## C1: scalar accessor flag semantics -/

/-- Environment with one declared string argument `foo` whose value slot is
deliberately unset. -/
def envC1 : Env := [("OMNI_ARG_LIST", "foo"), ("OMNI_ARG_FOO_TYPE", "str")]

/-- Scalar string type descriptor. -/
def tiStrScalar : TypeInfo :=
  { rawType := "str", baseType := "str", sliceSize := 0, isSlice := false, isGroup := false }

/-- The store `ParseArgs` builds from `envC1`: `foo` declared, its string
slot present but nil. -/
def argsC1 : Args :=
  { NewArgs with declaredArgs := [("foo", tiStrScalar)], strings := [("foo", none)] }

/-- C1 (refuting evaluation): on a declared-but-unset scalar, `GetString`
returns the zero value with flag **true** (the flag is map presence, i.e.
"declared", not "declared and set"), contradicting the claim that the flag
is true exactly when the argument existed *and was set*.  The repository's
own test (`TestStringArgDefaults`) asserts this `true` flag. -/
theorem C1_declared_unset_counterexample :
    (ParseArgs envC1).1 = some argsC1 ∧
    argsC1.strings.lookup "foo" = some none ∧
    GetString argsC1 "foo" = ("", true) ∧
    ¬((GetString argsC1 "foo").2 = false) := by
  refine ⟨by decide, by decide, by decide, by decide⟩

/-- Scalar bool type descriptor. -/
def tiBoolScalar : TypeInfo :=
  { rawType := "bool", baseType := "bool", sliceSize := 0, isSlice := false, isGroup := false }

/-- Scalar int type descriptor. -/
def tiIntScalar : TypeInfo :=
  { rawType := "int", baseType := "int", sliceSize := 0, isSlice := false, isGroup := false }

/-- Scalar float type descriptor. -/
def tiFloatScalar : TypeInfo :=
  { rawType := "float", baseType := "float", sliceSize := 0, isSlice := false,
    isGroup := false }

/-- Environment declaring one unset scalar argument of every base kind. -/
def envC1all : Env :=
  [("OMNI_ARG_LIST", "fs fb fi ff"), ("OMNI_ARG_FS_TYPE", "str"),
   ("OMNI_ARG_FB_TYPE", "bool"), ("OMNI_ARG_FI_TYPE", "int"),
   ("OMNI_ARG_FF_TYPE", "float")]

/-- The store `ParseArgs` builds from `envC1all`: all four scalars declared,
each slot present but nil. -/
def argsC1all : Args :=
  { NewArgs with
    declaredArgs := [("ff", tiFloatScalar), ("fi", tiIntScalar), ("fb", tiBoolScalar),
      ("fs", tiStrScalar)],
    strings := [("fs", none)], bools := [("fb", none)], ints := [("fi", none)],
    floats := [("ff", none)] }

/-- Store holding one declared-but-unset (nil) slot in each typed map. -/
def argsC1n : Args :=
  { NewArgs with
    strings := [("u", none)], bools := [("u", none)], ints := [("u", none)],
    floats := [("u", none)] }

/-- Flag and unset-slot behavior of `getSingle` given the decode-slot
invariant: the flag is true, and an absent value key means the slot is nil,
so the accessor yields the default with flag true. -/
theorem scalarSlot_flag_and_unset {T : Type} (env : Env) (conv : String → Except GoErr T)
    (store : List (String × Option T)) (name : String) (d : T)
    (hlow : strToLower name = name)
    (hslot : scalarSlotInv env conv store name) :
    (getSingle name store d).2 = true ∧
    (lookupEnv env (valueKey name none none) = none → getSingle name store d = (d, true)) := by
  obtain ⟨v, hv1, hv2⟩ := hslot
  constructor
  · unfold getSingle
    rw [hlow, hv1]
    cases v <;> rfl
  · intro hunset
    have hnone : handleSingleValue env name conv = .ok none := by
      unfold handleSingleValue getArgValue
      rw [hunset]
    rw [hnone] at hv2
    injection hv2 with h3
    subst h3
    unfold getSingle
    rw [hlow, hv1]

/-- C1 (amended): each of the four scalar accessors returns the value
together with a flag that is true exactly when the argument exists in the
store: a declared scalar argument of the matching base kind always has flag
true — in particular a declared-but-unset slot yields the zero value with
flag `true`, for `GetString`, `GetBool`, `GetInt` and `GetFloat` alike —
while a name absent from the store yields the distinct not-found signal,
the zero value with flag `false`; a set slot yields its value with flag
`true`. -/
theorem C1_scalar_accessor_flags :
    (∀ (env : Env) (a : Args) (name : String) (ti : TypeInfo),
      (ParseArgs env).1 = some a →
      a.declaredArgs.lookup name = some ti →
      ti.isGroup = false → ti.isSlice = false → ti.baseType = "str" →
      (GetString a name).2 = true ∧
      (lookupEnv env (valueKey name none none) = none → GetString a name = ("", true))) ∧
    (∀ (env : Env) (a : Args) (name : String) (ti : TypeInfo),
      (ParseArgs env).1 = some a →
      a.declaredArgs.lookup name = some ti →
      ti.isGroup = false → ti.isSlice = false → ti.baseType = "bool" →
      (GetBool a name).2 = true ∧
      (lookupEnv env (valueKey name none none) = none → GetBool a name = (false, true))) ∧
    (∀ (env : Env) (a : Args) (name : String) (ti : TypeInfo),
      (ParseArgs env).1 = some a →
      a.declaredArgs.lookup name = some ti →
      ti.isGroup = false → ti.isSlice = false → ti.baseType = "int" →
      (GetInt a name).2 = true ∧
      (lookupEnv env (valueKey name none none) = none → GetInt a name = (0, true))) ∧
    (∀ (env : Env) (a : Args) (name : String) (ti : TypeInfo),
      (ParseArgs env).1 = some a →
      a.declaredArgs.lookup name = some ti →
      ti.isGroup = false → ti.isSlice = false → ti.baseType = "float" →
      (GetFloat a name).2 = true ∧
      (lookupEnv env (valueKey name none none) = none → GetFloat a name = (.zero, true))) ∧
    (∀ (a : Args) (name : String), a.strings.lookup (strToLower name) = some none →
      GetString a name = ("", true)) ∧
    (∀ (a : Args) (name : String), a.bools.lookup (strToLower name) = some none →
      GetBool a name = (false, true)) ∧
    (∀ (a : Args) (name : String), a.ints.lookup (strToLower name) = some none →
      GetInt a name = (0, true)) ∧
    (∀ (a : Args) (name : String), a.floats.lookup (strToLower name) = some none →
      GetFloat a name = (.zero, true)) ∧
    (∀ (a : Args) (name : String), a.strings.lookup (strToLower name) = none →
      GetString a name = ("", false)) ∧
    (∀ (a : Args) (name : String), a.bools.lookup (strToLower name) = none →
      GetBool a name = (false, false)) ∧
    (∀ (a : Args) (name : String), a.ints.lookup (strToLower name) = none →
      GetInt a name = (0, false)) ∧
    (∀ (a : Args) (name : String), a.floats.lookup (strToLower name) = none →
      GetFloat a name = (.zero, false)) ∧
    (∀ (a : Args) (name : String) (v : String),
      a.strings.lookup (strToLower name) = some (some v) → GetString a name = (v, true)) ∧
    (∀ (a : Args) (name : String) (v : Bool),
      a.bools.lookup (strToLower name) = some (some v) → GetBool a name = (v, true)) ∧
    (∀ (a : Args) (name : String) (v : Int),
      a.ints.lookup (strToLower name) = some (some v) → GetInt a name = (v, true)) ∧
    (∀ (a : Args) (name : String) (v : FloatVal),
      a.floats.lookup (strToLower name) = some (some v) → GetFloat a name = (v, true)) := by
  refine ⟨fun env a name ti hp hlook hg hs hbase => ?_,
    fun env a name ti hp hlook hg hs hbase => ?_,
    fun env a name ti hp hlook hg hs hbase => ?_,
    fun env a name ti hp hlook hg hs hbase => ?_,
    fun a name h => ?_, fun a name h => ?_, fun a name h => ?_, fun a name h => ?_,
    fun a name h => ?_, fun a name h => ?_, fun a name h => ?_, fun a name h => ?_,
    fun a name v h => ?_, fun a name v h => ?_, fun a name v h => ?_, fun a name v h => ?_⟩
  · have hinv := ParseArgs_inv env a hp
    have hlow := hinv.2.1 (name, ti) (lookup_mem name ti _ hlook)
    have hslot := hinv.2.2 name ti hlook hg hs
    unfold scalarInvFor at hslot
    rw [hbase, if_neg (by decide), if_neg (by decide), if_neg (by decide)] at hslot
    exact scalarSlot_flag_and_unset env strConvert a.strings name "" hlow hslot
  · have hinv := ParseArgs_inv env a hp
    have hlow := hinv.2.1 (name, ti) (lookup_mem name ti _ hlook)
    have hslot := hinv.2.2 name ti hlook hg hs
    unfold scalarInvFor at hslot
    rw [hbase, if_pos rfl] at hslot
    exact scalarSlot_flag_and_unset env boolConvert a.bools name false hlow hslot
  · have hinv := ParseArgs_inv env a hp
    have hlow := hinv.2.1 (name, ti) (lookup_mem name ti _ hlook)
    have hslot := hinv.2.2 name ti hlook hg hs
    unfold scalarInvFor at hslot
    rw [hbase, if_neg (by decide), if_pos rfl] at hslot
    exact scalarSlot_flag_and_unset env intConvert a.ints name 0 hlow hslot
  · have hinv := ParseArgs_inv env a hp
    have hlow := hinv.2.1 (name, ti) (lookup_mem name ti _ hlook)
    have hslot := hinv.2.2 name ti hlook hg hs
    unfold scalarInvFor at hslot
    rw [hbase, if_neg (by decide), if_neg (by decide), if_pos rfl] at hslot
    exact scalarSlot_flag_and_unset env floatConvert a.floats name .zero hlow hslot
  · unfold GetString getSingle; rw [h]
  · unfold GetBool getSingle; rw [h]
  · unfold GetInt getSingle; rw [h]
  · unfold GetFloat getSingle; rw [h]
  · unfold GetString getSingle; rw [h]
  · unfold GetBool getSingle; rw [h]
  · unfold GetInt getSingle; rw [h]
  · unfold GetFloat getSingle; rw [h]
  · unfold GetString getSingle; rw [h]
  · unfold GetBool getSingle; rw [h]
  · unfold GetInt getSingle; rw [h]
  · unfold GetFloat getSingle; rw [h]

/-- Store with one set slot of every base kind, for the accessor witnesses. -/
def argsC1w : Args :=
  { NewArgs with
    strings := [("k", some "v")], bools := [("k", some true)],
    ints := [("k", some 2)], floats := [("k", some (.lit "1.5"))] }

theorem C1_scalar_accessor_flags_witness :
    GetString argsC1 "foo" = ("", true) ∧
    GetBool argsC1all "fb" = (false, true) ∧
    GetInt argsC1all "fi" = (0, true) ∧
    GetFloat argsC1all "ff" = (.zero, true) ∧
    GetString argsC1n "u" = ("", true) ∧
    GetBool argsC1n "u" = (false, true) ∧
    GetInt argsC1n "u" = (0, true) ∧
    GetFloat argsC1n "u" = (.zero, true) ∧
    GetString NewArgs "absent" = ("", false) ∧
    GetBool NewArgs "absent" = (false, false) ∧
    GetInt NewArgs "absent" = (0, false) ∧
    GetFloat NewArgs "absent" = (.zero, false) ∧
    GetString argsC1w "k" = ("v", true) ∧
    GetBool argsC1w "k" = (true, true) ∧
    GetInt argsC1w "k" = (2, true) ∧
    GetFloat argsC1w "k" = (.lit "1.5", true) :=
  ⟨(C1_scalar_accessor_flags.1 envC1 argsC1 "foo" tiStrScalar (by decide) (by decide)
      rfl rfl rfl).2 (by decide),
   (C1_scalar_accessor_flags.2.1 envC1all argsC1all "fb" tiBoolScalar (by decide)
      (by decide) rfl rfl rfl).2 (by decide),
   (C1_scalar_accessor_flags.2.2.1 envC1all argsC1all "fi" tiIntScalar (by decide)
      (by decide) rfl rfl rfl).2 (by decide),
   (C1_scalar_accessor_flags.2.2.2.1 envC1all argsC1all "ff" tiFloatScalar (by decide)
      (by decide) rfl rfl rfl).2 (by decide),
   C1_scalar_accessor_flags.2.2.2.2.1 argsC1n "u" (by decide),
   C1_scalar_accessor_flags.2.2.2.2.2.1 argsC1n "u" (by decide),
   C1_scalar_accessor_flags.2.2.2.2.2.2.1 argsC1n "u" (by decide),
   C1_scalar_accessor_flags.2.2.2.2.2.2.2.1 argsC1n "u" (by decide),
   C1_scalar_accessor_flags.2.2.2.2.2.2.2.2.1 NewArgs "absent" rfl,
   C1_scalar_accessor_flags.2.2.2.2.2.2.2.2.2.1 NewArgs "absent" rfl,
   C1_scalar_accessor_flags.2.2.2.2.2.2.2.2.2.2.1 NewArgs "absent" rfl,
   C1_scalar_accessor_flags.2.2.2.2.2.2.2.2.2.2.2.1 NewArgs "absent" rfl,
   C1_scalar_accessor_flags.2.2.2.2.2.2.2.2.2.2.2.2.1 argsC1w "k" "v" (by decide),
   C1_scalar_accessor_flags.2.2.2.2.2.2.2.2.2.2.2.2.2.1 argsC1w "k" true (by decide),
   C1_scalar_accessor_flags.2.2.2.2.2.2.2.2.2.2.2.2.2.2.1 argsC1w "k" 2 (by decide),
   C1_scalar_accessor_flags.2.2.2.2.2.2.2.2.2.2.2.2.2.2.2 argsC1w "k" (.lit "1.5")
     (by decide)⟩

/-! ## C9: GetAllArgs coverage -/

/-- Flag reported by the scalar accessor that `GetAllArgs` consults for a
declared argument of the given base kind. -/
def scalarFlag (a : Args) (name : String) (ti : TypeInfo) : Bool :=
  if ti.baseType = "bool" then (GetBool a name).2
  else if ti.baseType = "int" then (GetInt a name).2
  else if ti.baseType = "float" then (GetFloat a name).2
  else (GetString a name).2

theorem getAllArgsStep_cases (a : Args) (result : List (String × GoVal))
    (p : String × TypeInfo) :
    getAllArgsStep a result p = result ∨
      ∃ w, getAllArgsStep a result p = mapInsert p.1 w result := by
  unfold getAllArgsStep
  by_cases h1 : p.2.baseType = "bool"
  · rw [if_pos h1]
    by_cases h2 : (GetBool a p.1).2 = true
    · exact Or.inr ⟨.bool (GetBool a p.1).1, by rw [if_pos h2]⟩
    · exact Or.inl (by rw [if_neg h2])
  · rw [if_neg h1]
    by_cases h1b : p.2.baseType = "int"
    · rw [if_pos h1b]
      by_cases h2 : (GetInt a p.1).2 = true
      · exact Or.inr ⟨.int (GetInt a p.1).1, by rw [if_pos h2]⟩
      · exact Or.inl (by rw [if_neg h2])
    · rw [if_neg h1b]
      by_cases h1c : p.2.baseType = "float"
      · rw [if_pos h1c]
        by_cases h2 : (GetFloat a p.1).2 = true
        · exact Or.inr ⟨.float (GetFloat a p.1).1, by rw [if_pos h2]⟩
        · exact Or.inl (by rw [if_neg h2])
      · rw [if_neg h1c]
        by_cases h2 : (GetString a p.1).2 = true
        · exact Or.inr ⟨.str (GetString a p.1).1, by rw [if_pos h2]⟩
        · exact Or.inl (by rw [if_neg h2])

theorem getAllArgsStep_pres (a : Args) (name : String) (result : List (String × GoVal))
    (p : String × TypeInfo) (h : (result.lookup name).isSome = true) :
    ((getAllArgsStep a result p).lookup name).isSome = true := by
  rcases getAllArgsStep_cases a result p with heq | ⟨w, heq⟩
  · rw [heq]; exact h
  · rw [heq]; exact lookup_mapInsert_isSome p.1 name w result h

theorem getAllArgsStep_self (a : Args) (result : List (String × GoVal))
    (name : String) (ti : TypeInfo) (hflag : scalarFlag a name ti = true) :
    ((getAllArgsStep a result (name, ti)).lookup name).isSome = true := by
  unfold scalarFlag at hflag
  unfold getAllArgsStep
  by_cases h1 : ti.baseType = "bool"
  · rw [if_pos h1] at hflag ⊢
    rw [if_pos hflag, lookup_mapInsert_self]
    rfl
  · rw [if_neg h1] at hflag ⊢
    by_cases h2 : ti.baseType = "int"
    · rw [if_pos h2] at hflag ⊢
      rw [if_pos hflag, lookup_mapInsert_self]
      rfl
    · rw [if_neg h2] at hflag ⊢
      by_cases h3 : ti.baseType = "float"
      · rw [if_pos h3] at hflag ⊢
        rw [if_pos hflag, lookup_mapInsert_self]
        rfl
      · rw [if_neg h3] at hflag ⊢
        rw [if_pos hflag, lookup_mapInsert_self]
        rfl

theorem getAllArgs_fold_pres (a : Args) (name : String) :
    ∀ (l : List (String × TypeInfo)) (init : List (String × GoVal)),
      (init.lookup name).isSome = true →
      ((l.foldl (getAllArgsStep a) init).lookup name).isSome = true := by
  intro l
  induction l with
  | nil => intro init h; exact h
  | cons p l ih =>
    intro init h
    rw [List.foldl_cons]
    exact ih (getAllArgsStep a init p) (getAllArgsStep_pres a name init p h)

theorem getAllArgs_fold_covers (a : Args) (name : String) (ti : TypeInfo)
    (hflag : scalarFlag a name ti = true) :
    ∀ (l : List (String × TypeInfo)) (init : List (String × GoVal)),
      (name, ti) ∈ l →
      ((l.foldl (getAllArgsStep a) init).lookup name).isSome = true := by
  intro l
  induction l with
  | nil => intro init h; cases h
  | cons p l ih =>
    intro init hmem
    rw [List.foldl_cons]
    rcases List.mem_cons.mp hmem with heq | hmem2
    · rw [← heq]
      exact getAllArgs_fold_pres a name l _ (getAllArgsStep_self a init name ti hflag)
    · exact ih (getAllArgsStep a init p) hmem2

theorem scalarFlag_of_inv (env : Env) (a : Args) (name : String) (ti : TypeInfo)
    (hlow : strToLower name = name)
    (hslot : scalarInvFor env a.bools a.ints a.floats a.strings name ti) :
    scalarFlag a name ti = true := by
  unfold scalarFlag
  unfold scalarInvFor at hslot
  by_cases h1 : ti.baseType = "bool"
  · rw [if_pos h1] at hslot ⊢
    obtain ⟨v, hv1, _⟩ := hslot
    unfold GetBool getSingle
    rw [hlow, hv1]
    cases v <;> rfl
  · rw [if_neg h1] at hslot ⊢
    by_cases h2 : ti.baseType = "int"
    · rw [if_pos h2] at hslot ⊢
      obtain ⟨v, hv1, _⟩ := hslot
      unfold GetInt getSingle
      rw [hlow, hv1]
      cases v <;> rfl
    · rw [if_neg h2] at hslot ⊢
      by_cases h3 : ti.baseType = "float"
      · rw [if_pos h3] at hslot ⊢
        obtain ⟨v, hv1, _⟩ := hslot
        unfold GetFloat getSingle
        rw [hlow, hv1]
        cases v <;> rfl
      · rw [if_neg h3] at hslot ⊢
        obtain ⟨v, hv1, _⟩ := hslot
        unfold GetString getSingle
        rw [hlow, hv1]
        cases v <;> rfl

/-- Environment declaring one *sequence*-shaped string argument. -/
def envC9 : Env :=
  [("OMNI_ARG_LIST", "xs"), ("OMNI_ARG_XS_TYPE", "str/1"), ("OMNI_ARG_XS_VALUE_0", "a")]

/-- C9 (refuting evaluation): the argument `xs` is declared (with sequence
shape), yet the snapshot returned by `GetAllArgs` is *empty* — the declared
name has no entry, contradicting the claim that the snapshot covers every
declared argument whatever its shape. -/
theorem C9_sequence_omitted_counterexample :
    ((ParseArgs envC9).1.map fun a => (a.declaredArgs.lookup "xs", GetAllArgs a)) =
      some (some { rawType := "str/1", baseType := "str", sliceSize := 1,
                   isSlice := true, isGroup := false }, []) := by
  decide

/-- C9 (amended): `GetAllArgs` covers every *scalar-shaped* declared
argument: for every declared name whose descriptor is neither sequence- nor
group-shaped, the returned mapping contains an entry for that name (reduced
per its base kind).  Sequence- and group-shaped declared arguments are
omitted, as the counterexample shows. -/
theorem C9_GetAllArgs_scalar_coverage :
    ∀ (env : Env) (a : Args) (name : String) (ti : TypeInfo),
      (ParseArgs env).1 = some a →
      a.declaredArgs.lookup name = some ti →
      ti.isGroup = false → ti.isSlice = false →
      ((GetAllArgs a).lookup name).isSome = true := by
  intro env a name ti hp hlook hg hs
  have hinv := ParseArgs_inv env a hp
  have hmem := lookup_mem name ti _ hlook
  have hlow := hinv.2.1 (name, ti) hmem
  have hflag := scalarFlag_of_inv env a name ti hlow (hinv.2.2 name ti hlook hg hs)
  unfold GetAllArgs
  exact getAllArgs_fold_covers a name ti hflag a.declaredArgs [] hmem

/-- Environment and store for the C9 witness: one scalar string argument. -/
def envC9w : Env := [("OMNI_ARG_LIST", "bar"), ("OMNI_ARG_BAR_TYPE", "str"),
  ("OMNI_ARG_BAR_VALUE", "hey")]

/-- The store `ParseArgs` builds from `envC9w`. -/
def argsC9w : Args :=
  { NewArgs with declaredArgs := [("bar", tiStrScalar)], strings := [("bar", some "hey")] }

theorem C9_GetAllArgs_witness :
    ((GetAllArgs argsC9w).lookup "bar").isSome = true :=
  C9_GetAllArgs_scalar_coverage envC9w argsC9w "bar" tiStrScalar (by decide) (by decide)
    rfl rfl

end OmniCli
